import Mathlib

/-!
Verification of the annotation rendering engine of mwp-zotero-tools.

The engine lives in two implementations:
  * `packages/zotero-elisp/zotero-api.el` (Emacs Lisp), and
  * `packages/zotero-export-notes/src/modules/annotationFormatter.ts` (TypeScript).

Strings are modelled as `List Char` (`Str`): each Emacs Lisp / JavaScript
character corresponds to one Unicode scalar value.  Pure string functions of
the source become Lean functions on `Str`; fields that can be absent (`nil` /
`undefined`) become `Option`, and a function that can signal an Emacs Lisp
error returns `Option` with `none` standing for the signal.
-/

set_option maxRecDepth 100000

/-- Strings of the modelled programs: a list of Unicode characters. -/
abbrev Str := List Char

/-- Shorthand turning a Lean string literal into the model's `Str`. -/
def str (s : String) : Str := s.data

/-! ## Literal substring replacement

`replaceAll p r s` models the Emacs Lisp call
`(replace-regexp-in-string (regexp-quote p) r s t t)`:
replace every occurrence of the literal pattern `p` in `s` by `r`, scanning
left to right, matches non-overlapping, and the inserted replacement text is
never rescanned (matching continues in the original text after the match).
The recursion is fuel-indexed so that it is structural and kernel-computable;
`replaceAll` supplies fuel `s.length`, which is always sufficient because each
step consumes at least one character of `s`. -/
def replaceAllGo (p r : Str) : Nat → Str → Str
  | 0, s => s
  | _ + 1, [] => []
  | fuel + 1, c :: rest =>
    if p ≠ [] ∧ p.isPrefixOf (c :: rest) then
      r ++ replaceAllGo p r fuel (List.drop (p.length - 1) rest)
    else
      c :: replaceAllGo p r fuel rest

/-- Replace every occurrence of the literal pattern `p` by `r` in `s`. -/
def replaceAll (p r s : Str) : Str := replaceAllGo p r s.length s

/-! ## TextRepair: `zotero-normalize-text-encoding`

`zotero-api.el` lines 386-506.  The function first folds an ordered list of 85
literal substring replacements over the text, then applies three contextual
regex replacements.  The table below is transcribed byte-for-byte from the
source (the Emacs Lisp reader turns `\"` into a double quote, `\\.` into a
backslash and a dot, and `\x80`/`\x94` into the characters U+0080/U+0094;
several left-hand sides that display alike are the single character U+00E2). -/
def replacements : List (Str × Str) := [
  (str "â", str "\""),
  (str "â", str "\""),
  (str "â", str "'"),
  (str "â", str "'"),
  (str "â", str "—"),
  (str "â", str "–"),
  (str "Ã¡", str "á"),
  (str "Ã©", str "é"),
  (str "Ã­", str "í"),
  (str "Ã³", str "ó"),
  (str "Ãº", str "ú"),
  (str "Ã±", str "ñ"),
  (str "Ã", str "À"),
  (str "Ã¨", str "è"),
  (str "Ã¬", str "ì"),
  (str "Ã²", str "ò"),
  (str "Ã¹", str "ù"),
  (str "Ã¤", str "ä"),
  (str "Ã«", str "ë"),
  (str "Ã¯", str "ï"),
  (str "Ã¶", str "ö"),
  (str "Ã¼", str "ü"),
  (str "Ã§", str "ç"),
  (str "â¢", str "•"),
  (str "â¦", str "…"),
  (str "Â°", str "°"),
  (str "Â±", str "±"),
  (str "Â²", str "²"),
  (str "Â³", str "³"),
  (str "Â½", str "½"),
  (str "Â¼", str "¼"),
  (str "Â¾", str "¾"),
  (str "Â©", str "©"),
  (str "Â®", str "®"),
  (str "â¹", str "‹"),
  (str "âº", str "›"),
  (str "Â«", str "«"),
  (str "Â»", str "»"),
  (str "peÂºple", str "people"),
  (str "pe\"ºple", str "people"),
  (str "Ã©lite", str "élite"),
  (str "Ã±res", str "fires"),
  (str "dÃ©cor", str "décor"),
  (str "signiÃ±cant", str "significant"),
  (str "deÃ±ciencies", str "deficiencies"),
  (str "proÃ±tability", str "profitability"),
  (str "contempoâraries", str "contemporaries"),
  (str "contempo\"raries", str "contemporaries"),
  (str "houseâhold", str "household"),
  (str "âassociationistsâ", str "\"associationists\""),
  (str "âplace\"", str "\"place\""),
  (str "âpurchasing\"", str "\"purchasing\""),
  (str "âmaintain-ing", str "\"maintain-ing"),
  (str "âdecentlyâ", str "\"decently\""),
  (str "âseparate spheres.'â", str "\"separate spheres.'\""),
  (str "heartâ is", str "heart\" is"),
  (str "âdogs", str "\"dogs"),
  (str "as;9", str "as-"),
  (str "as;9 ", str "as- "),
  (str "pa5-checks", str "paychecks"),
  (str "th%\\.", str "they."),
  (str "th% ", str "they "),
  (str "th%", str "they"),
  (str "undenl", str "under"),
  (str "peºple", str "people"),
  (str "contempo—raries", str "contemporaries"),
  (str "contempo\"raries", str "contemporaries"),
  (str "ex\"pected", str "expected"),
  (str "house\"hold", str "household"),
  (str "house\"wives", str "housewives"),
  (str "single\"family", str "single-family"),
  (str "well\"publicized", str "well-publicized"),
  (str "ration-ali'ze", str "rationalize"),
  (str "car\"ried", str "carried"),
  (str "in\"dustrialization", str "industrialization"),
  (str "self\"sufficient", str "self-sufficient"),
  (str "water\"cooled", str "water-cooled"),
  (str "home\"places", str "home places"),
  (str "work\"places", str "work places"),
  (str "rules\"to", str "rules—to"),
  (str "ourselves\"generate", str "ourselves—generate"),
  (str "home\"namely", str "home—namely"),
  (str "rules\"\x80\x94to", str "rules—to"),
  (str "ourselves\"\x80\x94generate", str "ourselves—generate"),
  (str "home\"\x80\x94namely", str "home—namely")]

/-- `[^a-zA-Z]`: a character that is not an ASCII letter. -/
def nonLetter (c : Char) : Bool :=
  !(('a' ≤ c ∧ c ≤ 'z') ∨ ('A' ≤ c ∧ c ≤ 'Z') : Prop)

/-- Match, at the head of `s`, the regex `lit1[^a-zA-Z]*lit2` (as used in the
three contextual replacements of `zotero-normalize-text-encoding`), returning
the length of the match.  The star is greedy; because `lit2` starts with an
ASCII letter for every pattern in the source, the greedy maximal run of
non-letters is the only candidate (backtracking into the run would place a
non-letter where `lit2`'s leading letter must stand). -/
def matchCtxAt (lit1 lit2 s : Str) : Option Nat :=
  if lit1.isPrefixOf s then
    let s1 := List.drop lit1.length s
    let run := s1.takeWhile nonLetter
    if lit2.isPrefixOf (List.drop run.length s1) then
      some (lit1.length + run.length + lit2.length)
    else
      none
  else
    none

/-- Replace every (leftmost, non-overlapping) match of `lit1[^a-zA-Z]*lit2`
by `rep`, modelling `(replace-regexp-in-string "lit1[^a-zA-Z]*lit2" rep s t t)`.
Fuel-indexed like `replaceAllGo`; the `n = 0` guard is inert because `lit1` is
non-empty in all three uses, so a match always has positive length. -/
def replaceCtxGo (lit1 lit2 rep : Str) : Nat → Str → Str
  | 0, s => s
  | _ + 1, [] => []
  | fuel + 1, c :: rest =>
    match matchCtxAt lit1 lit2 (c :: rest) with
    | some n =>
      if n = 0 then c :: replaceCtxGo lit1 lit2 rep fuel rest
      else rep ++ replaceCtxGo lit1 lit2 rep fuel (List.drop (n - 1) rest)
    | none => c :: replaceCtxGo lit1 lit2 rep fuel rest

/-- All-occurrences contextual regex replacement (see `replaceCtxGo`). -/
def replaceCtx (lit1 lit2 rep s : Str) : Str := replaceCtxGo lit1 lit2 rep s.length s

/-- `zotero-normalize-text-encoding` (zotero-api.el lines 386-506) on a
present string: fold the 85 literal replacements in order, then apply the
three contextual regex replacements `rules"[^a-zA-Z]*to`,
`ourselves"[^a-zA-Z]*generate` and `home"[^a-zA-Z]*namely`. -/
def normalizeTextEncoding (s : Str) : Str :=
  let t := replacements.foldl (fun acc pr => replaceAll pr.1 pr.2 acc) s
  let t := replaceCtx (str "rules\"") (str "to") (str "rules—to") t
  let t := replaceCtx (str "ourselves\"") (str "generate") (str "ourselves—generate") t
  replaceCtx (str "home\"") (str "namely") (str "home—namely") t

/-- The full contract of `zotero-normalize-text-encoding`: `nil` (an absent
string) passes through unchanged, a present string is repaired. -/
def normalizeTextEncodingOpt (s : Option Str) : Option Str :=
  s.map normalizeTextEncoding

/-! ### Clean ASCII inputs

The live left-hand sides of the replacement table fall into three classes:
those containing a character outside ASCII, those containing a double quote,
and those containing one of five all-ASCII corruption triggers.  A string that
avoids all three classes cannot match any rule, so the repair pipeline leaves
it unchanged. -/

/-- An ASCII character (code point at most 127). -/
def asciiChar (c : Char) : Bool := c.toNat ≤ 127

/-- The all-ASCII, quote-free corruption triggers of the replacement table. -/
def asciiTriggers : List Str :=
  [str "as;9", str "pa5-checks", str "th%", str "undenl", str "ration-ali'ze"]

/-- A string that is ASCII-only, has no double-quote character, and contains
none of the five ASCII corruption triggers as a substring.  (An `abbrev` so
that decidability is found by unfolding.) -/
abbrev cleanAscii (s : Str) : Prop :=
  (∀ c ∈ s, asciiChar c = true) ∧ ('"' ∉ s) ∧
    ∀ t ∈ asciiTriggers, ¬ List.IsInfix t s

/-- A pattern that can never occur inside a `cleanAscii` string: it contains a
non-ASCII character, a double quote, or one of the ASCII triggers. -/
def dirtyPattern (p : Str) : Bool :=
  p.any (fun c => !asciiChar c) || p.contains '"' ||
    asciiTriggers.any (fun t => decide (List.IsInfix t p))

/-! ## Annotation records and the reading-order sorter -/

/-- The `tags` value of an annotation's `data` alist, keeping the runtime
shape Emacs Lisp distinguishes.  The package's JSON parser
(`zotero--json-parse`, called with `:array-type 'array`) delivers JSON arrays
as vectors, so API data carries `vec`; `lst` is a proper list of tag objects,
with `lst []` standing for `nil` (tags absent).  Each element holds the
object's `tag` string — the value the code reads with
`(cdr (assq 'tag ...))` — or `none` when that key is missing. -/
inductive TagsValue where
  | vec (ts : List (Option Str))
  | lst (ts : List (Option Str))
deriving DecidableEq

/-- An annotation as read by the Emacs Lisp code: the fields of the record's
`data` alist.  An absent field (`nil`) is `none`.  The `tags` value keeps its
runtime shape, which the renderers scrutinise (see `TagsValue`). -/
structure AnnotationData where
  annotationType : Option Str
  key : Option Str
  annotationText : Option Str
  annotationComment : Option Str
  annotationPageLabel : Option Str
  annotationSortIndex : Option Str
  tags : TagsValue
deriving DecidableEq

/-- Value of a run of decimal digits. -/
def digitsVal (ds : Str) : Nat :=
  ds.foldl (fun a c => a * 10 + (c.toNat - 48)) 0

/-- `string-to-number` on integer-shaped input: skip leading spaces and tabs,
an optional sign, then leading decimal digits; any string with no leading
digits yields `0`.  Emacs Lisp's `string-to-number` never signals an error.
(For a fractional label such as `"3.7"` Emacs returns a float whose later
uses — `%05d` formatting — truncate it; the model parses the integer part
directly, which agrees on every label the engine meets.) -/
def stringToNumberInt (s : Str) : Int :=
  let s1 := s.dropWhile (fun c => c = ' ' ∨ c = '\t')
  match s1 with
  | '-' :: rest =>
    let ds := rest.takeWhile Char.isDigit
    if ds = [] then 0 else - (digitsVal ds : Int)
  | '+' :: rest =>
    let ds := rest.takeWhile Char.isDigit
    if ds = [] then 0 else (digitsVal ds : Int)
  | other =>
    let ds := other.takeWhile Char.isDigit
    if ds = [] then 0 else (digitsVal ds : Int)

/-- The character of a decimal digit. -/
def digitChar (d : Nat) : Char :=
  if d = 0 then '0' else if d = 1 then '1' else if d = 2 then '2'
  else if d = 3 then '3' else if d = 4 then '4' else if d = 5 then '5'
  else if d = 6 then '6' else if d = 7 then '7' else if d = 8 then '8' else '9'

/-- Fuel-indexed digit expansion, most significant first (fuel `n + 1` always
suffices since `n / 10 < n` for `n ≥ 10`). -/
def natDigitsGo : Nat → Nat → Str → Str
  | 0, _, acc => acc
  | fuel + 1, n, acc =>
    if n < 10 then digitChar n :: acc
    else natDigitsGo fuel (n / 10) (digitChar (n % 10) :: acc)

/-- Decimal digits of a natural number. -/
def natDigits (n : Nat) : Str := natDigitsGo (n + 1) n []

/-- Zero-pad on the left to width `w`. -/
def padLeftZero (w : Nat) (ds : Str) : Str := List.replicate (w - ds.length) '0' ++ ds

/-- `(format "%05d" n)`: zero-pad to 5 characters, sign included. -/
def format05d (n : Int) : Str :=
  if n < 0 then '-' :: padLeftZero 4 (natDigits (-n).toNat)
  else padLeftZero 5 (natDigits n.toNat)

/-- `string<`: strict lexicographic comparison by character code. -/
def strLt : Str → Str → Bool
  | [], [] => false
  | [], _ :: _ => true
  | _ :: _, [] => false
  | a :: as, b :: bs =>
    if a.toNat < b.toNat then true
    else if b.toNat < a.toNat then false
    else strLt as bs

/-- `zotero--annotation-sort-key` (zotero-api.el lines 266-275): the
`annotationSortIndex` verbatim when present and non-empty, otherwise the page
label parsed with `string-to-number` (absent label defaults to `"0"`) and
formatted `%05d`.  The source wraps the fallback in a `condition-case` whose
handler returns `"99999"`; `string-to-number` and `format` never signal on
any string, so that handler is unreachable and unparseable labels fall
through to `(format "%05d" 0) = "00000"`. -/
def annotationSortKey (a : AnnotationData) : Str :=
  let idx := a.annotationSortIndex.getD []
  if idx ≠ [] then idx
  else format05d (stringToNumberInt (a.annotationPageLabel.getD (str "0")))

/-- Stable insertion: place `x` after every element it is not strictly
below. -/
def insertSorted (lt : α → α → Bool) (x : α) : List α → List α
  | [] => [x]
  | y :: ys => if lt x y then x :: y :: ys else y :: insertSorted lt x ys

/-- Stable sort by a strict comparison: insert each element, left to right,
into the sorted prefix.  For a strict total order this is the unique stable
sorted order, the one Emacs's stable merge-sort `sort` produces. -/
def stableSortBy (lt : α → α → Bool) (l : List α) : List α :=
  l.foldl (fun acc x => insertSorted lt x acc) []

/-- The sorter's comparison: `string<` on the derived keys. -/
def annLt (a b : AnnotationData) : Bool :=
  strLt (annotationSortKey a) (annotationSortKey b)

/-- `zotero-sort-annotations` (zotero-api.el lines 257-264) at the level of
the value sequence: the stable sort of the list by `string<` on the derived
keys.  (The call sorts `(copy-sequence annotations)`, leaving the caller's
list intact; that frame property is modelled at the cons-cell level further
below.) -/
def zoteroSortAnnotations (l : List AnnotationData) : List AnnotationData :=
  stableSortBy annLt l

/-! ## Link building and page display (Emacs Lisp side) -/

/-- `zotero--is-spine-index` (zotero-api.el lines 277-282): non-nil,
non-empty, all decimal digits, and at least 5 characters long. -/
def isSpineIndex (label : Option Str) : Bool :=
  match label with
  | none => false
  | some l => decide (l ≠ []) && l.all Char.isDigit && decide (5 ≤ l.length)

/-- `zotero--build-open-pdf-link` (zotero-api.el lines 284-295): the page and
annotation query parameters are each optional; no `?` is appended when both
are absent. -/
def buildOpenPdfLink (attachmentId pageLabel annKey : Str) : Str :=
  let params :=
    (if pageLabel ≠ [] then [str "page=" ++ pageLabel] else []) ++
      (if annKey ≠ [] then [str "annotation=" ++ annKey] else [])
  str "zotero://open-pdf/library/items/" ++ attachmentId ++
    (if params = [] then [] else str "?" ++ List.intercalate (str "&") params)

/-- `zotero--page-display` (zotero-api.el lines 297-308). -/
def pageDisplay (pageLabel sortIndex : Option Str) : Str :=
  if pageLabel.getD [] ≠ [] ∧ isSpineIndex pageLabel = false then
    str "p. " ++ pageLabel.getD []
  else if pageLabel.getD [] = [] ∧ (sortIndex.getD []).contains '|' then
    str "annotation"
  else if pageLabel.getD [] = [] then
    str "p. ?"
  else
    str "annotation"

/-! ## ChapterResolver: `zotero--get-chapters-for-page`

A chapter map entry is the `(title page-label level)` triple produced by the
external chapter-map command; the JSON parse can deliver the position label as
a string or as a number, which the source re-checks with `stringp` at each
use. -/
structure ChapterEntry where
  title : Str
  label : Sum Str Int
  level : Nat
deriving DecidableEq

/-- An integer rendered as Emacs and JavaScript render it. -/
def intToStr (n : Int) : Str :=
  if n < 0 then '-' :: natDigits (-n).toNat else natDigits n.toNat

/-- `(if (stringp lbl) lbl (number-to-string lbl))`: the label as a string for
numeric parsing. -/
def chapterLabelString (l : Sum Str Int) : Str :=
  match l with
  | Sum.inl s => s
  | Sum.inr n => intToStr n

/-- `(if (stringp lbl) lbl "")`: the label as used by exact-match mode. -/
def chapterLabelExact (l : Sum Str Int) : Str :=
  match l with
  | Sum.inl s => s
  | Sum.inr _ => []

/-- The per-level heading state shared by the resolver and the assembler:
record `title` at `level`, overwriting that level and evicting every strictly
deeper level (`puthash` followed by the `maphash`/`remhash` sweep).  The state
is kept as a level-ascending association list, which is exactly the data the
integer-keyed hash table holds. -/
def stackUpdate (st : List (Nat × Str)) (level : Nat) (title : Str) :
    List (Nat × Str) :=
  (st.filter fun p => p.1 < level) ++ [(level, title)]

/-- `gethash level` on the heading state. -/
def lookupLevel (st : List (Nat × Str)) (level : Nat) : Option Str :=
  (st.find? fun p => p.1 == level).map fun p => p.2

/-- Comparison used by the resolver's final `(sort result (< by level))`. -/
def levelLt (p q : Nat × Str) : Bool := decide (p.1 < q.1)

/-- `zotero--get-chapters-for-page` (zotero-api.el lines 345-382).  Numeric
mode when the target label parses to a non-zero number: fold the map in
order, recording each entry whose own label parses `≤` target via
`stackUpdate`; the survivors, sorted by level, are the answer.  Exact-match
mode otherwise: the last entry whose string label equals the target, or
nothing.  An empty map or an absent/empty label yields nothing. -/
def getChaptersForPage (chapterMap : List ChapterEntry) (pageLabel : Option Str) :
    List (Str × Nat) :=
  match pageLabel with
  | none => []
  | some pl =>
    if chapterMap = [] ∨ pl = [] then []
    else
      let target := stringToNumberInt pl
      if target ≠ 0 then
        let final := chapterMap.foldl
          (fun st e =>
            if stringToNumberInt (chapterLabelString e.label) ≤ target then
              stackUpdate st e.level e.title
            else st)
          ([] : List (Nat × Str))
        (stableSortBy levelLt final).map fun p => (p.2, p.1)
      else
        chapterMap.foldl
          (fun acc e => if chapterLabelExact e.label = pl then [(e.title, e.level)] else acc)
          ([] : List (Str × Nat))

/-- The EPUB effective-label computation of the two assemblers (zotero-api.el
lines 619-623 and 758-762): when the page label looks like a spine index and
the sort index starts with digits, use that leading digit run instead. -/
def effectiveLabel (pageLabel sortIndex : Str) : Str :=
  let run := sortIndex.takeWhile Char.isDigit
  if isSpineIndex (some pageLabel) && decide (run ≠ []) then run else pageLabel

/-! ## BlockRenderer (Emacs Lisp side): per-annotation org and markdown -/

/-- The tag block of the org renderer (zotero-api.el lines 556-560).  Its
guard `(and tags (listp tags))` is false for `nil` and for a vector — the
shape the package's JSON parser produces — so the block is skipped; on a
nonempty proper list, evaluating `(mapcar (lambda (t) (cdr (assq 'tag t)))
tags)` tries to bind the constant symbol `t` as the lambda's argument, which
Emacs Lisp forbids, so it signals `setting-constant` and aborts the render.
The block therefore never contributes a line: it yields no lines, or signals
(`none`). -/
def orgTagLine : TagsValue → Option (List Str)
  | TagsValue.vec _ => some []
  | TagsValue.lst [] => some []
  | TagsValue.lst (_ :: _) => none

/-- The tag block of the markdown renderer (zotero-api.el lines 697-701): the
same `(and tags (listp tags))` guard and the same constant-binding
`(lambda (t) ...)`, hence the same behaviour — no lines, or a
`setting-constant` signal. -/
def mdTagLines : TagsValue → Option (List Str)
  | TagsValue.vec _ => some []
  | TagsValue.lst [] => some []
  | TagsValue.lst (_ :: _) => none

/-- A present, non-empty string, or `none`. -/
def nonEmptyOpt (o : Option Str) : Option Str :=
  match o with
  | some t => if t = [] then none else some t
  | none => none

/-- The org link line `[[link][display]]:` of one annotation (the `format`
call at zotero-api.el lines 528/542/549). -/
def orgLinkLine (a : AnnotationData) (attachmentId : Str) : Str :=
  str "[[" ++ buildOpenPdfLink attachmentId (a.annotationPageLabel.getD []) (a.key.getD []) ++
    str "][" ++
    pageDisplay (some (a.annotationPageLabel.getD [])) (some (a.annotationSortIndex.getD [])) ++
    str "]]:"

/-- The markdown link line `[display](link):` of one annotation (the `format`
call at zotero-api.el lines 671/684/690). -/
def mdLinkLine (a : AnnotationData) (attachmentId : Str) : Str :=
  str "[" ++
    pageDisplay (some (a.annotationPageLabel.getD [])) (some (a.annotationSortIndex.getD [])) ++
    str "](" ++
    buildOpenPdfLink attachmentId (a.annotationPageLabel.getD []) (a.key.getD []) ++ str "):"

/-- `zotero--format-single-annotation-org` (zotero-api.el lines 508-561):
org-mode lines for one annotation; `none` when the broken tag block signals
(nonempty list-shaped tags), aborting the render. -/
def formatSingleAnnotationOrg (a : AnnotationData) (attachmentId : Str)
    (citationKey : Option Str) : Option (List Str) :=
  let annType := a.annotationType.getD (str "unknown")
  let text := nonEmptyOpt (normalizeTextEncodingOpt a.annotationText)
  let comment := nonEmptyOpt (normalizeTextEncodingOpt a.annotationComment)
  let pageLabel := a.annotationPageLabel.getD []
  let linkLine := orgLinkLine a attachmentId
  let citeLines : List Str :=
    match citationKey with
    | some ck =>
      [str "", str "[cite:@" ++ ck ++ str ", p." ++ (if pageLabel ≠ [] then pageLabel else str "?") ++ str "]"]
    | none => []
  let mainLines : List Str :=
    if annType = str "highlight" ∨ annType = str "underline" then
      match text with
      | some t =>
        [linkLine, str "#+begin_quote", t, str "#+end_quote"] ++
          (match comment with | some c => [str "", c] | none => []) ++ citeLines
      | none => []
    else if annType = str "note" then
      [linkLine] ++
        (match comment with
         | some c => [str "#+begin_comment", c, str "#+end_comment"]
         | none => [])
    else if annType = str "image" then
      [linkLine, str "#+begin_example", str "[Image annotation]", str "#+end_example"] ++
        (match comment with | some c => [str "", c] | none => [])
    else []
  match orgTagLine a.tags with
  | none => none
  | some tl => some (mainLines ++ tl)

/-- `zotero--format-single-annotation-md` (zotero-api.el lines 651-702):
markdown lines for one annotation; `none` when the broken tag block signals
(nonempty list-shaped tags), aborting the render. -/
def formatSingleAnnotationMd (a : AnnotationData) (attachmentId : Str)
    (citationKey : Option Str) : Option (List Str) :=
  let annType := a.annotationType.getD (str "unknown")
  let text := nonEmptyOpt (normalizeTextEncodingOpt a.annotationText)
  let comment := nonEmptyOpt (normalizeTextEncodingOpt a.annotationComment)
  let pageLabel := a.annotationPageLabel.getD []
  let linkLine := mdLinkLine a attachmentId
  let citeLines : List Str :=
    match citationKey with
    | some ck =>
      [str "", str "[cite:@" ++ ck ++ str ", p." ++ (if pageLabel ≠ [] then pageLabel else str "?") ++ str "]"]
    | none => []
  let mainLines : List Str :=
    if annType = str "highlight" ∨ annType = str "underline" then
      match text with
      | some t =>
        [linkLine, str "", str "> " ++ t] ++
          (match comment with | some c => [str "", c] | none => []) ++ citeLines
      | none => []
    else if annType = str "note" then
      [linkLine] ++
        (match comment with | some c => [str "", str "*" ++ c ++ str "*"] | none => [])
    else if annType = str "image" then
      [linkLine, str "", str "`[Image annotation]`"] ++
        (match comment with | some c => [str "", c] | none => [])
    else []
  match mdTagLines a.tags with
  | none => none
  | some tl => some (mainLines ++ tl)

/-! ## DocumentAssembler: `zotero-format-as-org-mode` / `zotero-format-as-markdown`

The aggregate record produced by `zotero-get-all-annotations-for-item`: either
an error marker, or item metadata with one entry per file attachment.  The
producer always fills the title/type/id fields (defaulting to "Unknown"), so
they are plain strings here; the error marker is the alist's `error` key. -/
structure AttachmentRecord where
  attachmentId : Str
  attachmentTitle : Str
  filename : Str
  annotations : List AnnotationData
deriving DecidableEq

structure AnnotationsData where
  errorMsg : Option Str
  itemTitle : Str
  itemType : Str
  itemId : Str
  attachments : List AttachmentRecord
deriving DecidableEq

/-- Emit chapter headings for one annotation (zotero-api.el lines 626-641 and
765-779): for each resolved `(title, level)` not already recorded at its
level, update the heading stack with the shared `stackUpdate` rule and emit a
heading line (`base` plus `level` copies of `hchar`) followed by a blank
line. -/
def emitChapterHeads (base : Str) (hchar : Char) (st : List (Nat × Str))
    (chapters : List (Str × Nat)) : List (Nat × Str) × List Str :=
  chapters.foldl
    (fun acc ch =>
      if lookupLevel acc.1 ch.2 = some ch.1 then acc
      else
        (stackUpdate acc.1 ch.2 ch.1,
          acc.2 ++ [base ++ List.replicate ch.2 hchar ++ str " " ++ ch.1, str ""]))
    (st, [])

/-- The per-attachment annotation loop shared by both assemblers: sort, then
fold over the annotations threading the heading stack; each annotation first
contributes its chapter headings (when a chapter map exists), then its
rendered block followed by a blank line (nothing when the block is empty).  A
signal from the renderer (`none`) aborts the whole assembly. -/
def attachmentAnnotationLines
    (render : AnnotationData → Str → Option Str → Option (List Str))
    (base : Str) (hchar : Char) (cmap : List ChapterEntry)
    (attachmentId : Str) (citationKey : Option Str)
    (anns : List AnnotationData) : Option (List Str) :=
  match (zoteroSortAnnotations anns).foldl
    (fun acc ann =>
      match acc with
      | none => none
      | some st =>
        let withChapters :=
          if cmap ≠ [] then
            emitChapterHeads base hchar st.1
              (getChaptersForPage cmap
                (some (effectiveLabel (ann.annotationPageLabel.getD [])
                  (ann.annotationSortIndex.getD []))))
          else (st.1, [])
        match render ann attachmentId citationKey with
        | none => none
        | some annLines =>
          some (withChapters.1,
            st.2 ++ withChapters.2 ++ (if annLines ≠ [] then annLines ++ [str ""] else [])))
    (some (([] : List (Nat × Str)), ([] : List Str))) with
  | none => none
  | some st => some st.2

/-- `zotero-format-as-org-mode` (zotero-api.el lines 563-649).  `getChapterMap`
models the external chapter-map collaborator
(`zotero--get-chapter-map-for-attachment`, keyed by attachment id and
filename); an empty list is its `nil`.  An error marker short-circuits to a
single error comment line; a renderer signal aborts the assembly (`none`). -/
def formatAsOrgMode (getChapterMap : Str → Str → List ChapterEntry)
    (d : AnnotationsData) (citationKey : Option Str) : Option Str :=
  match d.errorMsg with
  | some msg => some (str "# Error: " ++ msg ++ str "\n")
  | none =>
    let multi := decide (1 < d.attachments.length)
    let headerLines : List Str :=
      [str "* " ++ normalizeTextEncoding d.itemTitle,
        str "  :PROPERTIES:",
        str "  :ITEM_TYPE: " ++ d.itemType,
        str "  :ZOTERO_KEY: " ++ d.itemId] ++
        (match citationKey with | some k => [str "  :CUSTOM_ID: " ++ k] | none => []) ++
        [str "  :END:", str ""]
    let attLines : Option (List Str) := d.attachments.foldl
      (fun acc att =>
        match acc with
        | none => none
        | some ls =>
          let head :=
            if multi then [str "** " ++ normalizeTextEncoding att.attachmentTitle, str ""]
            else []
          if att.annotations = [] then
            some (ls ++ head ++
              [(if multi then str "   No annotations found." else str "No annotations found."),
                str ""])
          else
            match attachmentAnnotationLines formatSingleAnnotationOrg
              (if multi then str "**" else str "*") '*'
              (getChapterMap att.attachmentId att.filename)
              att.attachmentId citationKey att.annotations with
            | none => none
            | some body => some (ls ++ head ++ body))
      (some ([] : List Str))
    match attLines with
    | none => none
    | some als => some (List.intercalate (str "\n") (headerLines ++ als))

/-- `zotero-format-as-markdown` (zotero-api.el lines 704-787), the markdown
twin of `formatAsOrgMode`. -/
def formatAsMarkdown (getChapterMap : Str → Str → List ChapterEntry)
    (d : AnnotationsData) (citationKey : Option Str) : Option Str :=
  match d.errorMsg with
  | some msg => some (str "# Error: " ++ msg ++ str "\n")
  | none =>
    let multi := decide (1 < d.attachments.length)
    let headerLines : List Str :=
      [str "# " ++ normalizeTextEncoding d.itemTitle,
        str "",
        str "**Item Type:** " ++ d.itemType,
        str "**Zotero Key:** " ++ d.itemId] ++
        (match citationKey with | some k => [str "**Citation Key:** " ++ k] | none => []) ++
        [str ""]
    let attLines : Option (List Str) := d.attachments.foldl
      (fun acc att =>
        match acc with
        | none => none
        | some ls =>
          let head :=
            if multi then [str "## " ++ normalizeTextEncoding att.attachmentTitle, str ""]
            else []
          if att.annotations = [] then
            some (ls ++ head ++ [str "No annotations found.", str ""])
          else
            match attachmentAnnotationLines formatSingleAnnotationMd
              (if multi then str "##" else str "#") '#'
              (getChapterMap att.attachmentId att.filename)
              att.attachmentId citationKey att.annotations with
            | none => none
            | some body => some (ls ++ head ++ body))
      (some ([] : List Str))
    match attLines with
    | none => none
    | some als => some (List.intercalate (str "\n") (headerLines ++ als))

/-! ## The TypeScript plugin formatter (`annotationFormatter.ts`)

`ZoteroAnnot` models the `ZoteroAnnotation` interface; `tags` holds the `tag`
strings returned by `getTags()`. -/
structure ZoteroAnnot where
  annotationType : Str
  annotationText : Option Str
  annotationComment : Option Str
  annotationPageLabel : Str
  annotationSortIndex : Option Str
  key : Str
  tags : List Str
deriving DecidableEq

/-- JavaScript's whitespace class `\s` (also used by `String.prototype.trim`). -/
def jsWhitespaceChar (c : Char) : Bool :=
  c = ' ' || c = '\t' || c = '\n' || c = '\r' || c = '\x0b' || c = '\x0c' ||
    c.toNat = 0xa0 || c.toNat = 0x1680 ||
    (0x2000 ≤ c.toNat && c.toNat ≤ 0x200a) ||
    c.toNat = 0x2028 || c.toNat = 0x2029 || c.toNat = 0x202f ||
    c.toNat = 0x205f || c.toNat = 0x3000 || c.toNat = 0xfeff

/-- `String.prototype.trim`. -/
def jsTrim (s : Str) : Str :=
  ((s.dropWhile jsWhitespaceChar).reverse.dropWhile jsWhitespaceChar).reverse

/-- A hexadecimal digit. -/
def hexDigit (c : Char) : Bool :=
  c.isDigit || ('a' ≤ c && c ≤ 'f') || ('A' ≤ c && c ≤ 'F')

/-- Value of a hex digit. -/
def hexVal (c : Char) : Nat :=
  if c.isDigit then c.toNat - 48
  else if 'a' ≤ c && c ≤ 'f' then c.toNat - 87
  else c.toNat - 55

/-- `parseInt(s)` with no radix argument: skip whitespace, optional sign,
`0x`/`0X` switches to hexadecimal, otherwise leading decimal digits; `none`
models `NaN` (no digits parsed). -/
def jsParseInt (s : Str) : Option Int :=
  let s1 := s.dropWhile jsWhitespaceChar
  let signAndRest : Bool × Str :=
    match s1 with
    | '-' :: r => (true, r)
    | '+' :: r => (false, r)
    | r => (false, r)
  let neg := signAndRest.1
  let apply := fun (n : Nat) => if neg then -(n : Int) else (n : Int)
  match signAndRest.2 with
  | '0' :: 'x' :: r | '0' :: 'X' :: r =>
    let ds := r.takeWhile hexDigit
    if ds = [] then none
    else some (apply (ds.foldl (fun a c => a * 16 + hexVal c) 0))
  | r =>
    let ds := r.takeWhile Char.isDigit
    if ds = [] then none else some (apply (digitsVal ds))

/-- `parseInt(annotation.annotationPageLabel) || 1`: `NaN` and `0` are falsy,
so both default to page `1`. -/
def pdfPageOf (label : Str) : Int :=
  match jsParseInt label with
  | none => 1
  | some n => if n = 0 then 1 else n

/-- `libraryID === 1 ? "library" : ` followed by `groups/{id}`. -/
def libraryPath (libraryID : Int) : Str :=
  if libraryID = 1 then str "library" else str "groups/" ++ intToStr libraryID

/-- The `url` local of `generateZoteroOrgLink`'s EPUB branch. -/
def generateZoteroEpubUrl (attachmentKey : Str) (libraryID : Int) (annotKey : Str) : Str :=
  str "zotero://open-epub/" ++ libraryPath libraryID ++ str "/items/" ++ attachmentKey ++
    str "?annotation=" ++ annotKey

/-- The `url` local of `generateZoteroOrgLink`'s PDF branch. -/
def generateZoteroPdfUrl (attachmentKey : Str) (libraryID : Int) (page : Int)
    (annotKey : Str) : Str :=
  str "zotero://open-pdf/" ++ libraryPath libraryID ++ str "/items/" ++ attachmentKey ++
    str "?page=" ++ intToStr page ++ str "&annotation=" ++ annotKey

/-- `generateZoteroOrgLink` (annotationFormatter.ts lines 30-50). -/
def generateZoteroOrgLink (attachmentKey : Str) (libraryID : Int) (a : ZoteroAnnot)
    (contentType : Str) : Str :=
  if contentType = str "application/epub+zip" then
    let location := if a.annotationPageLabel = [] then str "Location" else a.annotationPageLabel
    str "[[" ++ generateZoteroEpubUrl attachmentKey libraryID a.key ++ str "][" ++
      location ++ str "]]:"
  else
    let page := pdfPageOf a.annotationPageLabel
    str "[[" ++ generateZoteroPdfUrl attachmentKey libraryID page a.key ++ str "][Page " ++
      intToStr page ++ str "]]:"

/-- `tag.replace(/\s+/g, "_")`: collapse each whitespace run to one
underscore.  The Boolean argument records whether the previous character was
part of a run. -/
def collapseWs : Bool → Str → Str
  | _, [] => []
  | prevWs, c :: rest =>
    if jsWhitespaceChar c then
      if prevWs then collapseWs true rest else '_' :: collapseWs true rest
    else c :: collapseWs false rest

/-- `.replace(/:/g, "-")`. -/
def replaceColons (s : Str) : Str := s.map fun c => if c = ':' then '-' else c

/-- The per-tag sanitization of `AnnotationFormatter.formatTags`. -/
def sanitizeTag (t : Str) : Str := replaceColons (collapseWs false t)

namespace AnnotationFormatter

/-- `AnnotationFormatter.formatTags` (annotationFormatter.ts lines 211-220). -/
def formatTags (a : ZoteroAnnot) : Str :=
  if a.tags = [] then []
  else str ":" ++ List.intercalate (str ":") (a.tags.map sanitizeTag) ++ str ":"

/-- `AnnotationFormatter.formatHighlight` (annotationFormatter.ts lines
80-112): link line, quote block (always), optional trimmed comment paragraph,
optional tag line. -/
def formatHighlight (a : ZoteroAnnot) (attachmentKey : Str) (libraryID : Int)
    (contentType : Str) : Str :=
  let link := generateZoteroOrgLink attachmentKey libraryID a contentType
  let text := a.annotationText.getD []
  let tags := formatTags a
  link ++ str "\n" ++
    str "#+begin_quote\n" ++ jsTrim text ++ str "\n" ++ str "#+end_quote\n" ++
    (match a.annotationComment with
     | some c => if c ≠ [] ∧ jsTrim c ≠ [] then str "\n" ++ jsTrim c ++ str "\n" else []
     | none => []) ++
    (if tags ≠ [] then tags ++ str "\n" else [])

/-- `AnnotationFormatter.formatNote` (annotationFormatter.ts lines 114-139):
link line, then the comment block — always emitted, possibly empty — then the
optional tag line. -/
def formatNote (a : ZoteroAnnot) (attachmentKey : Str) (libraryID : Int)
    (contentType : Str) : Str :=
  let link := generateZoteroOrgLink attachmentKey libraryID a contentType
  let comment := a.annotationComment.getD []
  let tags := formatTags a
  link ++ str "\n" ++
    str "#+begin_comment\n" ++ jsTrim comment ++ str "\n" ++ str "#+end_comment\n" ++
    (if tags ≠ [] then tags ++ str "\n" else [])

/-- `AnnotationFormatter.formatImage` (annotationFormatter.ts lines 141-168). -/
def formatImage (a : ZoteroAnnot) (attachmentKey : Str) (libraryID : Int)
    (contentType : Str) : Str :=
  let link := generateZoteroOrgLink attachmentKey libraryID a contentType
  let tags := formatTags a
  link ++ str "\n" ++
    str "#+begin_example\n" ++ str "[Image annotation at " ++ a.annotationPageLabel ++
    str "]\n" ++ str "#+end_example\n" ++
    (match a.annotationComment with
     | some c => if c ≠ [] ∧ jsTrim c ≠ [] then str "\n" ++ jsTrim c ++ str "\n" else []
     | none => []) ++
    (if tags ≠ [] then tags ++ str "\n" else [])

/-- `AnnotationFormatter.formatInk` (annotationFormatter.ts lines 170-197). -/
def formatInk (a : ZoteroAnnot) (attachmentKey : Str) (libraryID : Int)
    (contentType : Str) : Str :=
  let link := generateZoteroOrgLink attachmentKey libraryID a contentType
  let tags := formatTags a
  link ++ str "\n" ++
    str "#+begin_example\n" ++ str "[Ink/drawing annotation at " ++ a.annotationPageLabel ++
    str "]\n" ++ str "#+end_example\n" ++
    (match a.annotationComment with
     | some c => if c ≠ [] ∧ jsTrim c ≠ [] then str "\n" ++ jsTrim c ++ str "\n" else []
     | none => []) ++
    (if tags ≠ [] then tags ++ str "\n" else [])

/-- `AnnotationFormatter.formatGeneric` (annotationFormatter.ts lines 199-209):
`annotationText || annotationComment || ""`, trimmed, after the link. -/
def formatGeneric (a : ZoteroAnnot) (attachmentKey : Str) (libraryID : Int)
    (contentType : Str) : Str :=
  let link := generateZoteroOrgLink attachmentKey libraryID a contentType
  let text :=
    match a.annotationText with
    | some t => if t ≠ [] then t else (a.annotationComment.getD [])
    | none => a.annotationComment.getD []
  link ++ str "\n" ++ jsTrim text ++ str "\n"

/-- `AnnotationFormatter.format` (annotationFormatter.ts lines 57-78): the
dispatch on annotation type. -/
def format (a : ZoteroAnnot) (attachmentKey : Str) (libraryID : Int)
    (contentType : Str) : Str :=
  if a.annotationType = str "highlight" ∨ a.annotationType = str "underline" then
    formatHighlight a attachmentKey libraryID contentType
  else if a.annotationType = str "note" then
    formatNote a attachmentKey libraryID contentType
  else if a.annotationType = str "image" then
    formatImage a attachmentKey libraryID contentType
  else if a.annotationType = str "ink" then
    formatInk a attachmentKey libraryID contentType
  else
    formatGeneric a attachmentKey libraryID contentType

end AnnotationFormatter

/-! ## Cons-cell heap model: the sorter's frame behaviour

`zotero-sort-annotations` evaluates `(sort (copy-sequence annotations) pred)`.
Emacs's `sort` is destructive on its argument — it reorders the argument's
cons cells by `setcdr` surgery, leaving each cell's value in place, and
returns the new head cell — while `copy-sequence` first builds a fresh chain
of cells holding the same values.  To settle what happens to the caller's
list, the two primitives are modelled on an explicit cons-cell heap: a heap
maps a cell index to its value and its `cdr` (the next cell, `none` = nil),
and allocation happens at indices `free, free + 1, …`. -/
structure Heap (α : Type) where
  cells : Nat → α × Option Nat
  free : Nat

/-- The proper list rooted at a pointer: `ChainAt h p is vs` says that
starting from `p` the cells `is` are traversed, holding the values `vs`. -/
inductive ChainAt (h : Heap α) : Option Nat → List Nat → List α → Prop
  | nil : ChainAt h none [] []
  | cons {i : Nat} {q : Option Nat} {is : List Nat} {v : α} {vs : List α} :
      i < h.free → h.cells i = (v, q) → ChainAt h q is vs →
      ChainAt h (some i) (i :: is) (v :: vs)

/-- `setcar`/`setcdr`: overwrite one cell. -/
def writeCell (h : Heap α) (i : Nat) (c : α × Option Nat) : Heap α :=
  ⟨fun j => if j = i then c else h.cells j, h.free⟩

/-- Allocate one fresh cell holding `v`; its `cdr` is nil when `last`,
otherwise the next cell to be allocated. -/
def allocOne (h : Heap α) (v : α) (last : Bool) : Heap α :=
  ⟨fun j => if j = h.free then (v, if last then none else some (h.free + 1)) else h.cells j,
    h.free + 1⟩

/-- Allocate a fresh chain holding `vs` at `free, free + 1, …`. -/
def allocCells (h : Heap α) : List α → Heap α
  | [] => h
  | v :: vs => allocCells (allocOne h v vs.isEmpty) vs

/-- `(copy-sequence l)` for an argument chain holding values `vs`: a fresh
chain with the same values; its head is the first fresh cell. -/
def copySequence (h : Heap α) (vs : List α) : Heap α × Option Nat :=
  (allocCells h vs, if vs.isEmpty then none else some h.free)

/-- Rewire the `cdr`s of the cells `idxs`, in that order, into one chain
(the pointer surgery a destructive list sort performs). -/
def relinkChain (h : Heap α) : List Nat → Heap α
  | [] => h
  | [i] => writeCell h i ((h.cells i).1, none)
  | i :: j :: rest => relinkChain (writeCell h i ((h.cells i).1, some j)) (j :: rest)

/-- The sorter's comparison read off the heap. -/
def idxLt (h : Heap AnnotationData) (i j : Nat) : Bool :=
  annLt (h.cells i).1 (h.cells j).1

/-- Emacs's destructive, stable `sort` on the chain of cells `idxs`: reorder
those cells (stably, by the comparison) through `cdr` surgery and return the
new head cell. -/
def elispSortList (h : Heap AnnotationData) (idxs : List Nat) :
    Heap AnnotationData × Option Nat :=
  let sorted := stableSortBy (idxLt h) idxs
  (relinkChain h sorted, sorted.head?)

/-- `zotero-sort-annotations` on the heap: copy the argument chain (whose
values are `vs`), then destructively sort the copy, whose cells are
`free, …, free + |vs| - 1`. -/
def zoteroSortAnnotationsHeap (h : Heap AnnotationData) (vs : List AnnotationData) :
    Heap AnnotationData × Option Nat :=
  let copied := copySequence h vs
  elispSortList copied.1 (List.range' h.free vs.length)

/-- The call relation for `zotero-sort-annotations`: from state `h` with
argument list `p`, the call returns the heap and pointer `res`.  The value
sequence `vs` of the argument chain determines the result. -/
def SortAnnotationsCall (h : Heap AnnotationData) (p : Option Nat)
    (res : Heap AnnotationData × Option Nat) : Prop :=
  ∃ is vs, ChainAt h p is vs ∧ res = zoteroSortAnnotationsHeap h vs

/-! ## Reading a URL's query parameters

Used to state C7's "no page query parameter is ever emitted": the names of
the query parameters of a URL string, read off the text after the first `?`,
split at `&`, each name the part before its `=`. -/
def splitOnChar (sep : Char) : Str → List Str
  | [] => [[]]
  | c :: rest =>
    if c = sep then [] :: splitOnChar sep rest
    else
      match splitOnChar sep rest with
      | [] => [[c]]
      | t :: ts => (c :: t) :: ts

/-- The query parameter names of a URL: nothing without a `?`. -/
def queryParamNames (u : Str) : List Str :=
  match u.dropWhile fun c => c ≠ '?' with
  | [] => []
  | _ :: after =>
    (splitOnChar '&' after).map fun p => p.takeWhile fun c => c ≠ '='

/-! ## Concrete inputs used by the claims -/

/-- A highlight with no sort index whose page label `"iv"` does not parse. -/
def annPageIV : AnnotationData :=
  ⟨some (str "highlight"), some (str "AIV"), some (str "text iv"), none,
    some (str "iv"), none, TagsValue.lst []⟩

/-- A highlight with no sort index and numeric page label `"5"`. -/
def annPage5 : AnnotationData :=
  ⟨some (str "highlight"), some (str "A5"), some (str "text 5"), none,
    some (str "5"), none, TagsValue.lst []⟩

/-- The chapter map of the specification's resolver examples. -/
def exampleChapterMap : List ChapterEntry :=
  [⟨str "Introduction", Sum.inl (str "1"), 1⟩,
    ⟨str "Background", Sum.inl (str "5"), 1⟩,
    ⟨str "1.1 History", Sum.inl (str "6"), 2⟩,
    ⟨str "Methods", Sum.inl (str "20"), 1⟩]

/-- An empty-text highlight carrying one tag in a (nonempty) proper list. -/
def emptyHighlightTagged : AnnotationData :=
  ⟨some (str "highlight"), some (str "ANN001"), some [], none,
    some (str "5"), some (str "00005|001234|00100"),
    TagsValue.lst [some (str "important")]⟩

/-- An empty-text highlight whose tag arrives as a vector (the JSON shape). -/
def emptyHighlightVecTagged : AnnotationData :=
  ⟨some (str "highlight"), some (str "ANN001"), some [], none,
    some (str "5"), some (str "00005|001234|00100"),
    TagsValue.vec [some (str "important")]⟩

/-- An empty-text highlight for the TypeScript formatter. -/
def tsEmptyHighlight : ZoteroAnnot :=
  ⟨str "highlight", some [], none, str "5", none, str "ANN001", []⟩

/-- A note annotation whose comment is empty (no tags). -/
def noteEmptyComment : AnnotationData :=
  ⟨some (str "note"), some (str "ANN002"), none, some [],
    some (str "10"), some (str "00010|002000|00050"), TagsValue.lst []⟩

/-- A PDF annotation whose page label is the string `"0"`. -/
def tsPageZero : ZoteroAnnot :=
  ⟨str "highlight", some (str "t"), none, str "0", none, str "K1", []⟩

/-- A note annotation carrying the tag `"foo bar"` in a proper list. -/
def noteTaggedFooBar : AnnotationData :=
  ⟨some (str "note"), some (str "ANN003"), none, some (str "c"),
    some (str "3"), none, TagsValue.lst [some (str "foo bar")]⟩

/-- The same note with its tag arriving as a vector (the JSON shape). -/
def noteTaggedVec : AnnotationData :=
  ⟨some (str "note"), some (str "ANN003"), none, some (str "c"),
    some (str "3"), none, TagsValue.vec [some (str "foo bar")]⟩

/-- An aggregate record carrying an error marker. -/
def erroredRecord : AnnotationsData :=
  ⟨some (str "Item X not found"), str "ignored title", str "book", str "X",
    [⟨str "ATT", str "t.pdf", str "t.pdf", [annPage5]⟩]⟩

/-- A chapter-map provider that finds nothing (for concrete runs). -/
def noChapterMap : Str → Str → List ChapterEntry := fun _ _ => []

/-- An EPUB annotation whose location label is a chapter name. -/
def tsChapter3 : ZoteroAnnot :=
  ⟨str "highlight", some (str "t"), none, str "Chapter 3", none, str "EP1", []⟩

/-- An annotation carrying the tags `important` and `review later`. -/
def tsTaggedPair : ZoteroAnnot :=
  ⟨str "highlight", some (str "t"), none, str "1", none, str "K2",
    [str "important", str "review later"]⟩

/-- A two-cell heap whose chain at cell 0 holds `annPage5` then `annPageIV`
(fresh cells start at 2). -/
def twoCellHeap : Heap AnnotationData :=
  ⟨fun i =>
    if i = 0 then (annPage5, some 1)
    else if i = 1 then (annPageIV, none)
    else (annPage5, none), 2⟩

/-! ## Lemmas about literal replacement -/

/-- When the pattern does not occur in `s` at all, a replacement pass returns
`s` unchanged, whatever the fuel.  (If `p = []` then `p` is an infix of any
`s`, so the hypothesis also rules the empty pattern out.) -/
theorem replaceAllGo_eq_self (p r : Str) :
    ∀ (fuel : Nat) (s : Str), ¬ List.IsInfix p s → replaceAllGo p r fuel s = s := by
  intro fuel
  induction fuel with
  | zero => intro s _; rfl
  | succ n ih =>
    intro s hs
    match s with
    | [] => rfl
    | c :: rest =>
      have hnp : ¬ (p ≠ [] ∧ p.isPrefixOf (c :: rest)) := by
        rintro ⟨-, hpre⟩
        exact hs (List.IsPrefix.isInfix (List.isPrefixOf_iff_prefix.mp hpre))
      rw [replaceAllGo, if_neg hnp]
      have : ¬ List.IsInfix p rest := fun h => hs (h.trans (List.suffix_cons c rest).isInfix)
      rw [ih rest this]

/-- `replaceAll` is the identity when the pattern does not occur. -/
theorem replaceAll_eq_self (p r s : Str) (h : ¬ List.IsInfix p s) :
    replaceAll p r s = s :=
  replaceAllGo_eq_self p r s.length s h

/-- A dirty pattern cannot occur inside a clean ASCII string. -/
theorem not_isInfix_of_dirtyPattern (p s : Str) (hp : dirtyPattern p = true)
    (hs : cleanAscii s) : ¬ List.IsInfix p s := by
  intro hinf
  obtain ⟨hascii, hq, htrig⟩ := hs
  rw [dirtyPattern, Bool.or_eq_true, Bool.or_eq_true] at hp
  rcases hp with (hp | hp) | hp
  · obtain ⟨c, hcp, hc⟩ := List.any_eq_true.mp hp
    have := hascii c (hinf.subset hcp)
    simp [this] at hc
  · have : ('"' : Char) ∈ p := by
      simpa using hp
    exact hq (hinf.subset this)
  · obtain ⟨t, htmem, ht⟩ := List.any_eq_true.mp hp
    exact htrig t htmem ((of_decide_eq_true ht).trans hinf)

/-- Every left-hand side of the replacement table is a dirty pattern. -/
theorem replacements_dirty : ∀ pr ∈ replacements, dirtyPattern pr.1 = true := by
  decide

/-- Folding literal replacements whose patterns never occur leaves the string
unchanged. -/
theorem foldl_replaceAll_eq_self (rs : List (Str × Str)) (s : Str)
    (h : ∀ pr ∈ rs, ¬ List.IsInfix pr.1 s) :
    rs.foldl (fun acc pr => replaceAll pr.1 pr.2 acc) s = s := by
  induction rs with
  | nil => rfl
  | cons pr rest ih =>
    rw [List.foldl_cons, replaceAll_eq_self pr.1 pr.2 s (h pr (by simp)),
      ih fun q hq => h q (by simp [hq])]

/-- A contextual regex replacement whose opening literal contains a double
quote leaves a quote-free string unchanged, whatever the fuel. -/
theorem replaceCtxGo_eq_self (lit1 lit2 rep : Str) (hq : ('"' : Char) ∈ lit1) :
    ∀ (fuel : Nat) (s : Str), ('"' : Char) ∉ s → replaceCtxGo lit1 lit2 rep fuel s = s := by
  intro fuel
  induction fuel with
  | zero => intro s _; rfl
  | succ n ih =>
    intro s hs
    match s with
    | [] => rfl
    | c :: rest =>
      have hm : matchCtxAt lit1 lit2 (c :: rest) = none := by
        rw [matchCtxAt, if_neg]
        intro hpre
        exact hs ((List.isPrefixOf_iff_prefix.mp hpre).subset hq)
      rw [replaceCtxGo, hm]
      have : ('"' : Char) ∉ rest := fun h => hs (List.mem_cons_of_mem c h)
      rw [ih rest this]

/-- `replaceCtx` is the identity on quote-free strings (for quote-opening
patterns, which all three contextual patterns of the source are). -/
theorem replaceCtx_eq_self (lit1 lit2 rep s : Str) (hq : ('"' : Char) ∈ lit1)
    (hs : ('"' : Char) ∉ s) : replaceCtx lit1 lit2 rep s = s :=
  replaceCtxGo_eq_self lit1 lit2 rep hq s.length s hs

/-- The repair pipeline is the identity on clean ASCII strings. -/
theorem normalizeTextEncoding_eq_self_of_cleanAscii (s : Str) (hs : cleanAscii s) :
    normalizeTextEncoding s = s := by
  have hfold : replacements.foldl (fun acc pr => replaceAll pr.1 pr.2 acc) s = s :=
    foldl_replaceAll_eq_self replacements s fun pr hpr =>
      not_isInfix_of_dirtyPattern pr.1 s (replacements_dirty pr hpr) hs
  have hnq : ('"' : Char) ∉ s := hs.2.1
  rw [normalizeTextEncoding]
  simp only [hfold]
  rw [replaceCtx_eq_self _ _ _ _ (by decide) hnq, replaceCtx_eq_self _ _ _ _ (by decide) hnq,
    replaceCtx_eq_self _ _ _ _ (by decide) hnq]

/-! ## Lemmas about the cons-cell heap model -/

/-- Every cell of a chain is allocated. -/
theorem ChainAt.bounded {h : Heap α} {p : Option Nat} {is : List Nat} {vs : List α}
    (hc : ChainAt h p is vs) : ∀ i ∈ is, i < h.free := by
  induction hc with
  | nil => intro i hi; cases hi
  | cons hlt _ _ ih =>
    intro j hj
    rcases List.mem_cons.mp hj with rfl | hj
    · exact hlt
    · exact ih j hj

/-- A chain survives into any heap that agrees on its cells and has at least
as much allocated. -/
theorem ChainAt.frame {h h2 : Heap α} {p : Option Nat} {is : List Nat} {vs : List α}
    (hc : ChainAt h p is vs) (hfree : h.free ≤ h2.free)
    (hcells : ∀ j ∈ is, h2.cells j = h.cells j) : ChainAt h2 p is vs := by
  induction hc with
  | nil => exact ChainAt.nil
  | cons hlt hcell _ ih =>
    exact ChainAt.cons (Nat.lt_of_lt_of_le hlt hfree)
      ((hcells _ (List.mem_cons_self _ _)).trans hcell)
      (ih fun j hj => hcells j (List.mem_cons_of_mem _ hj))

/-- The values of a chain are the values of its cells, in order. -/
theorem ChainAt.values_eq {h : Heap α} {p : Option Nat} {is : List Nat} {vs : List α}
    (hc : ChainAt h p is vs) : (is.map fun i => (h.cells i).1) = vs := by
  induction hc with
  | nil => rfl
  | cons _ hcell _ ih => simp [List.map_cons, ih, hcell]

/-- A pointer determines its chain. -/
theorem ChainAt.determ {h : Heap α} {p : Option Nat} {is1 : List Nat} {vs1 : List α}
    (h1 : ChainAt h p is1 vs1) :
    ∀ {is2 : List Nat} {vs2 : List α}, ChainAt h p is2 vs2 → is1 = is2 ∧ vs1 = vs2 := by
  induction h1 with
  | nil =>
    intro is2 vs2 h2
    cases h2
    exact ⟨rfl, rfl⟩
  | cons hlt hcell _ ih =>
    intro is2 vs2 h2
    cases h2 with
    | cons hlt2 hcell2 htail2 =>
      obtain ⟨hv, hq⟩ := Prod.mk.injEq .. ▸ (hcell.symm.trans hcell2)
      subst hv
      obtain ⟨hi, hvs⟩ := ih (hq ▸ htail2)
      exact ⟨by rw [hi], by rw [hvs]⟩

/-- `allocCells` allocates exactly the values' worth of cells. -/
theorem allocCells_free (h : Heap α) (vs : List α) :
    (allocCells h vs).free = h.free + vs.length := by
  induction vs generalizing h with
  | nil => simp [allocCells]
  | cons v rest ih =>
    rw [allocCells, ih]
    simp [allocOne]
    omega

/-- `allocCells` leaves every previously allocated cell unchanged. -/
theorem allocCells_frame (h : Heap α) (vs : List α) :
    ∀ j < h.free, (allocCells h vs).cells j = h.cells j := by
  induction vs generalizing h with
  | nil => intro j _; rfl
  | cons v rest ih =>
    intro j hj
    have hj1 : j < (allocOne h v rest.isEmpty).free := Nat.lt_succ_of_lt hj
    rw [allocCells, ih _ j hj1]
    simp [allocOne, Nat.ne_of_lt hj]

/-- The chain `allocCells` builds: the fresh cells `free, …, free + n - 1`
holding `vs` in order. -/
theorem allocCells_chain (h : Heap α) (vs : List α) :
    ChainAt (allocCells h vs) (if vs.isEmpty then none else some h.free)
      (List.range' h.free vs.length) vs := by
  induction vs generalizing h with
  | nil => exact ChainAt.nil
  | cons v rest ih =>
    have ht := ih (allocOne h v rest.isEmpty)
    have hc : (allocCells (allocOne h v rest.isEmpty) rest).cells h.free =
        (v, if rest.isEmpty then none else some (h.free + 1)) := by
      rw [allocCells_frame _ rest h.free (Nat.lt_succ_self _)]
      simp [allocOne]
    have hb : h.free < (allocCells (allocOne h v rest.isEmpty) rest).free := by
      rw [allocCells_free]
      simp [allocOne]
      omega
    show ChainAt (allocCells (allocOne h v rest.isEmpty) rest) (some h.free)
      (h.free :: List.range' (h.free + 1) rest.length) (v :: rest)
    exact ChainAt.cons hb hc ht

/-- `relinkChain` does not allocate. -/
theorem relinkChain_free (h : Heap α) (idxs : List Nat) :
    (relinkChain h idxs).free = h.free := by
  induction idxs generalizing h with
  | nil => rfl
  | cons i rest ih =>
    cases rest with
    | nil => rfl
    | cons k rest2 =>
      rw [relinkChain, ih]
      rfl

/-- `relinkChain` touches only the listed cells. -/
theorem relinkChain_frame (h : Heap α) (idxs : List Nat) :
    ∀ j, j ∉ idxs → (relinkChain h idxs).cells j = h.cells j := by
  induction idxs generalizing h with
  | nil => intro j _; rfl
  | cons i rest ih =>
    intro j hj
    have hji : j ≠ i := fun e => hj (e ▸ List.mem_cons_self i rest)
    have hjr : j ∉ rest := fun hr => hj (List.mem_cons_of_mem i hr)
    cases rest with
    | nil => simp [relinkChain, writeCell, hji]
    | cons k rest2 =>
      rw [relinkChain, ih _ j hjr]
      simp [writeCell, hji]

/-- Rewiring distinct allocated cells produces the chain of those cells, in
order, holding the values they held before. -/
theorem relinkChain_chain (h : Heap α) (idxs : List Nat)
    (hnd : idxs.Nodup) (hb : ∀ i ∈ idxs, i < h.free) :
    ChainAt (relinkChain h idxs) idxs.head? idxs (idxs.map fun i => (h.cells i).1) := by
  induction idxs generalizing h with
  | nil => exact ChainAt.nil
  | cons i rest ih =>
    cases rest with
    | nil =>
      refine ChainAt.cons ?_ ?_ ChainAt.nil
      · exact hb i (List.mem_cons_self i [])
      · simp [relinkChain, writeCell]
    | cons k rest2 =>
      have hik : i ∉ (k :: rest2) := (List.nodup_cons.mp hnd).1
      have hnd2 : (k :: rest2).Nodup := (List.nodup_cons.mp hnd).2
      have hb2 : ∀ m ∈ k :: rest2, m < (writeCell h i ((h.cells i).1, some k)).free :=
        fun m hm => hb m (List.mem_cons_of_mem i hm)
      have ht := ih (writeCell h i ((h.cells i).1, some k)) hnd2 hb2
      have hmapeq : ((k :: rest2).map fun m => ((writeCell h i ((h.cells i).1, some k)).cells m).1) =
          ((k :: rest2).map fun m => (h.cells m).1) := by
        refine List.map_congr_left ?_
        intro m hm
        have : m ≠ i := fun e => hik (e ▸ hm)
        simp [writeCell, this]
      rw [hmapeq] at ht
      rw [relinkChain]
      refine ChainAt.cons ?_ ?_ ht
      · rw [relinkChain_free]
        exact hb i (List.mem_cons_self _ _)
      · rw [relinkChain_frame _ _ i hik]
        simp [writeCell]

/-! ## Lemmas about the stable sort -/

/-- Inserting permutes to consing. -/
theorem insertSorted_perm (lt : α → α → Bool) (x : α) (l : List α) :
    List.Perm (insertSorted lt x l) (x :: l) := by
  induction l with
  | nil => exact List.Perm.refl _
  | cons y ys ih =>
    rw [insertSorted]
    by_cases hxy : lt x y = true
    · simp [hxy]
    · simp only [hxy, if_false]
      exact (List.Perm.cons y ih).trans (List.Perm.swap x y ys)

/-- The fold underlying `stableSortBy`, relative to an accumulator. -/
theorem foldl_insertSorted_perm (lt : α → α → Bool) (l : List α) :
    ∀ acc : List α,
      List.Perm (l.foldl (fun acc x => insertSorted lt x acc) acc) (acc ++ l) := by
  induction l with
  | nil => intro acc; simp
  | cons x xs ih =>
    intro acc
    rw [List.foldl_cons]
    refine (ih (insertSorted lt x acc)).trans ?_
    refine (List.Perm.append_right xs (insertSorted_perm lt x acc)).trans ?_
    exact List.perm_middle.symm

/-- `stableSortBy` permutes its input. -/
theorem stableSortBy_perm (lt : α → α → Bool) (l : List α) :
    List.Perm (stableSortBy lt l) l := by
  simpa using foldl_insertSorted_perm lt l []

/-- Mapping commutes with insertion when the comparison factors through the
map. -/
theorem map_insertSorted (f : α → β) (lt : β → β → Bool) (x : α) (l : List α) :
    (insertSorted (fun a b => lt (f a) (f b)) x l).map f =
      insertSorted lt (f x) (l.map f) := by
  induction l with
  | nil => rfl
  | cons y ys ih =>
    rw [List.map_cons, insertSorted, insertSorted]
    by_cases hxy : lt (f x) (f y) = true
    · simp [hxy]
    · simp [hxy, ih]

/-- Mapping commutes with the stable sort when the comparison factors through
the map. -/
theorem map_stableSortBy (f : α → β) (lt : β → β → Bool) (l : List α) :
    (stableSortBy (fun a b => lt (f a) (f b)) l).map f = stableSortBy lt (l.map f) := by
  suffices haux : ∀ (l acc : List α),
      ((l.foldl (fun acc x => insertSorted (fun a b => lt (f a) (f b)) x acc) acc).map f) =
        (l.map f).foldl (fun acc y => insertSorted lt y acc) (acc.map f) by
    exact haux l []
  intro l
  induction l with
  | nil => intro acc; rfl
  | cons x xs ih =>
    intro acc
    rw [List.foldl_cons, ih, map_insertSorted]
    rfl

/-- Core behaviour of `zotero-sort-annotations` on the heap: the caller's
chain is untouched — same cells, same values, same order — and the returned
pointer heads a freshly allocated, disjoint chain holding the stably sorted
values. -/
theorem zoteroSortAnnotationsHeap_spec (h : Heap AnnotationData) (p : Option Nat)
    (is : List Nat) (vs : List AnnotationData) (hch : ChainAt h p is vs) :
    ChainAt (zoteroSortAnnotationsHeap h vs).1 p is vs ∧
      ∃ is2, ChainAt (zoteroSortAnnotationsHeap h vs).1 (zoteroSortAnnotationsHeap h vs).2 is2
          (zoteroSortAnnotations vs) ∧ ∀ i ∈ is2, i ∉ is := by
  have hfree1 : (allocCells h vs).free = h.free + vs.length := allocCells_free h vs
  have hperm : List.Perm
      (stableSortBy (idxLt (allocCells h vs)) (List.range' h.free vs.length))
      (List.range' h.free vs.length) := stableSortBy_perm _ _
  have hmemidx : ∀ i ∈ List.range' h.free vs.length, h.free ≤ i ∧ i < h.free + vs.length := by
    intro i hi
    have := List.mem_range'_1.mp hi
    omega
  have hmem_sorted : ∀ i ∈ stableSortBy (idxLt (allocCells h vs)) (List.range' h.free vs.length),
      h.free ≤ i ∧ i < h.free + vs.length :=
    fun i hi => hmemidx i (hperm.mem_iff.mp hi)
  have hnd : (stableSortBy (idxLt (allocCells h vs)) (List.range' h.free vs.length)).Nodup :=
    hperm.nodup_iff.mpr (List.nodup_range' h.free vs.length)
  have hbnd := hch.bounded
  have hch1 : ChainAt (allocCells h vs) p is vs :=
    hch.frame (hfree1 ▸ Nat.le_add_right h.free vs.length)
      (fun j hj => allocCells_frame h vs j (hbnd j hj))
  have hch2 : ChainAt
      (relinkChain (allocCells h vs)
        (stableSortBy (idxLt (allocCells h vs)) (List.range' h.free vs.length))) p is vs :=
    hch1.frame (Nat.le_of_eq (relinkChain_free _ _).symm)
      (fun j hj => relinkChain_frame _ _ j
        (fun hjs => Nat.lt_irrefl j (Nat.lt_of_lt_of_le (hbnd j hj) (hmem_sorted j hjs).1)))
  have hvals : ((List.range' h.free vs.length).map fun i => ((allocCells h vs).cells i).1) = vs :=
    (allocCells_chain h vs).values_eq
  have hsortedChain := relinkChain_chain (allocCells h vs)
    (stableSortBy (idxLt (allocCells h vs)) (List.range' h.free vs.length)) hnd
    (fun i hi => hfree1 ▸ (hmem_sorted i hi).2)
  have hmap : ((stableSortBy (idxLt (allocCells h vs)) (List.range' h.free vs.length)).map
      fun i => ((allocCells h vs).cells i).1) = zoteroSortAnnotations vs := by
    have hmsb := map_stableSortBy (fun i => ((allocCells h vs).cells i).1) annLt
      (List.range' h.free vs.length)
    rw [show (fun a b =>
        annLt (((allocCells h vs).cells a).1) (((allocCells h vs).cells b).1)) =
        idxLt (allocCells h vs) from rfl] at hmsb
    rw [hmsb, hvals]
    rfl
  rw [hmap] at hsortedChain
  exact ⟨hch2,
    stableSortBy (idxLt (allocCells h vs)) (List.range' h.free vs.length),
    hsortedChain,
    fun i hi hmem =>
      Nat.lt_irrefl i (Nat.lt_of_lt_of_le (hbnd i hmem) (hmem_sorted i hi).1)⟩

/-! ## Non-emptiness of the repair pipeline -/

/-- The empty string repairs to itself. -/
theorem normalizeTextEncoding_nil : normalizeTextEncoding [] = [] := by decide

/-- A literal replacement with a non-empty replacement never empties a
non-empty string. -/
theorem replaceAllGo_ne_nil (p r : Str) (hr : r ≠ []) :
    ∀ (fuel : Nat) (s : Str), s ≠ [] → replaceAllGo p r fuel s ≠ [] := by
  intro fuel
  induction fuel with
  | zero => intro s hs; exact hs
  | succ n ih =>
    intro s hs
    match s with
    | c :: rest =>
      rw [replaceAllGo]
      by_cases hp : p ≠ [] ∧ p.isPrefixOf (c :: rest)
      · rw [if_pos hp]
        exact fun he => hr (List.append_eq_nil.mp he).1
      · rw [if_neg hp]
        exact List.cons_ne_nil c _

/-- A contextual replacement with a non-empty replacement never empties a
non-empty string. -/
theorem replaceCtxGo_ne_nil (lit1 lit2 rep : Str) (hr : rep ≠ []) :
    ∀ (fuel : Nat) (s : Str), s ≠ [] → replaceCtxGo lit1 lit2 rep fuel s ≠ [] := by
  intro fuel
  induction fuel with
  | zero => intro s hs; exact hs
  | succ n ih =>
    intro s hs
    match s with
    | c :: rest =>
      rcases hm : matchCtxAt lit1 lit2 (c :: rest) with _ | k
      · rw [replaceCtxGo, hm]
        exact List.cons_ne_nil c _
      · rw [replaceCtxGo, hm]
        dsimp only
        by_cases hk : k = 0
        · rw [if_pos hk]
          exact List.cons_ne_nil c _
        · rw [if_neg hk]
          exact fun he => hr (List.append_eq_nil.mp he).1

/-- The repair pipeline never empties a non-empty string (every right-hand
side of the table is non-empty, and so are the three regex replacements). -/
theorem normalizeTextEncoding_ne_nil (s : Str) (hs : s ≠ []) :
    normalizeTextEncoding s ≠ [] := by
  have hrs : ∀ pr ∈ replacements, pr.2 ≠ [] := by decide
  have hfold : ∀ (rs : List (Str × Str)), (∀ pr ∈ rs, pr.2 ≠ []) → ∀ t : Str, t ≠ [] →
      rs.foldl (fun acc pr => replaceAll pr.1 pr.2 acc) t ≠ [] := by
    intro rs
    induction rs with
    | nil => intro _ t ht; exact ht
    | cons pr rest ih =>
      intro hall t ht
      rw [List.foldl_cons]
      exact ih (fun q hq => hall q (List.mem_cons_of_mem pr hq))
        (replaceAll pr.1 pr.2 t)
        (replaceAllGo_ne_nil pr.1 pr.2 (hall pr (List.mem_cons_self pr rest)) t.length t ht)
  rw [normalizeTextEncoding]
  refine replaceCtxGo_ne_nil _ _ _ (by decide) _ _ ?_
  refine replaceCtxGo_ne_nil _ _ _ (by decide) _ _ ?_
  refine replaceCtxGo_ne_nil _ _ _ (by decide) _ _ ?_
  exact hfold replacements hrs s hs

/-! ## Characters of rendered numbers -/

/-- `digitChar` always lands in `0`-`9`. -/
theorem digitChar_mem (d : Nat) : digitChar d ∈ str "0123456789" := by
  unfold digitChar
  repeat' split
  all_goals decide

/-- Every character `natDigitsGo` adds is a decimal digit. -/
theorem natDigitsGo_chars :
    ∀ (fuel n : Nat) (acc : Str), ∀ c ∈ natDigitsGo fuel n acc,
      c ∈ str "0123456789" ∨ c ∈ acc := by
  intro fuel
  induction fuel with
  | zero => intro n acc c hc; exact Or.inr hc
  | succ f ih =>
    intro n acc c hc
    rw [natDigitsGo] at hc
    by_cases hn : n < 10
    · rw [if_pos hn] at hc
      rcases List.mem_cons.mp hc with rfl | h
      · exact Or.inl (digitChar_mem n)
      · exact Or.inr h
    · rw [if_neg hn] at hc
      rcases ih (n / 10) (digitChar (n % 10) :: acc) c hc with h | h
      · exact Or.inl h
      · rcases List.mem_cons.mp h with rfl | h2
        · exact Or.inl (digitChar_mem _)
        · exact Or.inr h2

/-- An integer renders as a possible minus sign and decimal digits. -/
theorem intToStr_chars (n : Int) : ∀ c ∈ intToStr n, c = '-' ∨ c ∈ str "0123456789" := by
  intro c hc
  rw [intToStr] at hc
  by_cases hn : n < 0
  · rw [if_pos hn] at hc
    rcases List.mem_cons.mp hc with rfl | h
    · exact Or.inl rfl
    · rcases natDigitsGo_chars _ _ _ c h with h2 | h2
      · exact Or.inr h2
      · cases h2
  · rw [if_neg hn] at hc
    rcases natDigitsGo_chars _ _ _ c hc with h2 | h2
    · exact Or.inr h2
    · cases h2

/-- The decimal digits carry no `?`, `&` or `=`. -/
theorem digits_urlSafe : ∀ c ∈ str "0123456789", c ≠ '?' ∧ c ≠ '&' ∧ c ≠ '=' := by
  decide

/-- No `?`, `&` or `=` appears in a rendered integer. -/
theorem intToStr_urlSafe (n : Int) : ∀ c ∈ intToStr n, c ≠ '?' ∧ c ≠ '&' ∧ c ≠ '=' := by
  intro c hc
  rcases intToStr_chars n c hc with rfl | h
  · exact ⟨by decide, by decide, by decide⟩
  · exact digits_urlSafe c h

/-! ## Reading the query string of the generated URLs -/

/-- Dropping up to the first `?` skips exactly the `?`-free part. -/
theorem dropWhile_until_qmark (A B : Str) (hA : ∀ c ∈ A, c ≠ '?') :
    (A ++ '?' :: B).dropWhile (fun c => c ≠ '?') = '?' :: B := by
  induction A with
  | nil => simp [List.dropWhile]
  | cons a as ih =>
    have ha : a ≠ '?' := hA a (List.mem_cons_self a as)
    rw [List.cons_append, List.dropWhile_cons, if_pos (by simp [ha]),
      ih fun c hc => hA c (List.mem_cons_of_mem a hc)]

/-- Splitting a separator-free string is trivial. -/
theorem splitOnChar_no_sep (sep : Char) (B : Str) (hB : ∀ c ∈ B, c ≠ sep) :
    splitOnChar sep B = [B] := by
  induction B with
  | nil => rfl
  | cons b bs ih =>
    rw [splitOnChar]
    have hb : b ≠ sep := hB b (List.mem_cons_self b bs)
    rw [if_neg hb, ih fun c hc => hB c (List.mem_cons_of_mem b hc)]

/-- Splitting at the first separator. -/
theorem splitOnChar_append_sep (sep : Char) (C D : Str) (hC : ∀ c ∈ C, c ≠ sep) :
    splitOnChar sep (C ++ sep :: D) = C :: splitOnChar sep D := by
  induction C with
  | nil => simp [splitOnChar]
  | cons c cs ih =>
    rw [List.cons_append, splitOnChar]
    have hc : c ≠ sep := hC c (List.mem_cons_self c cs)
    rw [if_neg hc, ih fun d hd => hC d (List.mem_cons_of_mem c hd)]

/-- Taking up to the first `=` keeps exactly the `=`-free part. -/
theorem takeWhile_until_eq (C D : Str) (hC : ∀ c ∈ C, c ≠ '=') :
    (C ++ '=' :: D).takeWhile (fun c => c ≠ '=') = C := by
  induction C with
  | nil => simp [List.takeWhile]
  | cons c cs ih =>
    have hc : c ≠ '=' := hC c (List.mem_cons_self c cs)
    rw [List.cons_append, List.takeWhile_cons, if_pos (by simp [hc]),
      ih fun d hd => hC d (List.mem_cons_of_mem c hd)]

/-- The parameter names after a clean prefix. -/
theorem queryParamNames_append (A B : Str) (hA : ∀ c ∈ A, c ≠ '?') :
    queryParamNames (A ++ '?' :: B) =
      (splitOnChar '&' B).map fun p => p.takeWhile fun c => c ≠ '=' := by
  rw [queryParamNames, dropWhile_until_qmark A B hA]

/-- The library path never contains `?`, `&` or `=`. -/
theorem libraryPath_urlSafe (lib : Int) :
    ∀ c ∈ libraryPath lib, c ≠ '?' ∧ c ≠ '&' ∧ c ≠ '=' := by
  intro c hc
  rw [libraryPath] at hc
  by_cases h1 : lib = 1
  · rw [if_pos h1] at hc
    exact (by decide : ∀ c ∈ str "library", c ≠ '?' ∧ c ≠ '&' ∧ c ≠ '=') c hc
  · rw [if_neg h1] at hc
    rcases List.mem_append.mp hc with h | h
    · exact (by decide : ∀ c ∈ str "groups/", c ≠ '?' ∧ c ≠ '&' ∧ c ≠ '=') c h
    · exact intToStr_urlSafe _ c h

/-- The EPUB URL's only query parameter is `annotation` — in particular no
`page` parameter is ever emitted — provided the attachment key holds no `?`
and the annotation key no `&` or `=`. -/
theorem queryParamNames_epubUrl (ak k : Str) (lib : Int)
    (hak : ∀ c ∈ ak, c ≠ '?') (hk : ∀ c ∈ k, c ≠ '&') :
    queryParamNames (generateZoteroEpubUrl ak lib k) = [str "annotation"] := by
  have hsplit : generateZoteroEpubUrl ak lib k =
      (str "zotero://open-epub/" ++ libraryPath lib ++ str "/items/" ++ ak) ++
        '?' :: (str "annotation" ++ '=' :: k) := by
    rw [generateZoteroEpubUrl]
    simp only [List.append_assoc, List.cons_append]
    rfl
  have hA : ∀ c ∈ str "zotero://open-epub/" ++ libraryPath lib ++ str "/items/" ++ ak,
      c ≠ '?' := by
    intro c hc
    rcases List.mem_append.mp hc with h1 | h4
    · rcases List.mem_append.mp h1 with h2 | h3
      · rcases List.mem_append.mp h2 with h5 | h6
        · exact (by decide : ∀ c ∈ str "zotero://open-epub/", c ≠ '?') c h5
        · exact (libraryPath_urlSafe lib c h6).1
      · exact (by decide : ∀ c ∈ str "/items/", c ≠ '?') c h3
    · exact hak c h4
  have hB : ∀ c ∈ str "annotation" ++ '=' :: k, c ≠ '&' := by
    intro c hc
    rcases List.mem_append.mp hc with h | h
    · exact (by decide : ∀ c ∈ str "annotation", c ≠ '&') c h
    · rcases List.mem_cons.mp h with rfl | h2
      · decide
      · exact hk c h2
  rw [hsplit, queryParamNames_append _ _ hA, splitOnChar_no_sep '&' _ hB,
    List.map_cons, List.map_nil, takeWhile_until_eq _ _ (by decide)]

/-- The PDF URL's query parameters are `page` then `annotation`, provided the
attachment key holds no `?` and the annotation key no `&` or `=`. -/
theorem queryParamNames_pdfUrl (ak k : Str) (lib page : Int)
    (hak : ∀ c ∈ ak, c ≠ '?') (hk : ∀ c ∈ k, c ≠ '&') :
    queryParamNames (generateZoteroPdfUrl ak lib page k) =
      [str "page", str "annotation"] := by
  have hsplit : generateZoteroPdfUrl ak lib page k =
      (str "zotero://open-pdf/" ++ libraryPath lib ++ str "/items/" ++ ak) ++
        '?' :: ((str "page" ++ '=' :: intToStr page) ++
          '&' :: (str "annotation" ++ '=' :: k)) := by
    rw [generateZoteroPdfUrl]
    simp only [List.append_assoc, List.cons_append]
    rfl
  have hA : ∀ c ∈ str "zotero://open-pdf/" ++ libraryPath lib ++ str "/items/" ++ ak,
      c ≠ '?' := by
    intro c hc
    rcases List.mem_append.mp hc with h1 | h4
    · rcases List.mem_append.mp h1 with h2 | h3
      · rcases List.mem_append.mp h2 with h5 | h6
        · exact (by decide : ∀ c ∈ str "zotero://open-pdf/", c ≠ '?') c h5
        · exact (libraryPath_urlSafe lib c h6).1
      · exact (by decide : ∀ c ∈ str "/items/", c ≠ '?') c h3
    · exact hak c h4
  have hC1 : ∀ c ∈ str "page" ++ '=' :: intToStr page, c ≠ '&' := by
    intro c hc
    rcases List.mem_append.mp hc with h | h
    · exact (by decide : ∀ c ∈ str "page", c ≠ '&') c h
    · rcases List.mem_cons.mp h with rfl | h2
      · decide
      · exact (intToStr_urlSafe page c h2).2.1
  have hC2 : ∀ c ∈ str "annotation" ++ '=' :: k, c ≠ '&' := by
    intro c hc
    rcases List.mem_append.mp hc with h | h
    · exact (by decide : ∀ c ∈ str "annotation", c ≠ '&') c h
    · rcases List.mem_cons.mp h with rfl | h2
      · decide
      · exact hk c h2
  rw [hsplit, queryParamNames_append _ _ hA, splitOnChar_append_sep '&' _ _ hC1,
    splitOnChar_no_sep '&' _ hC2, List.map_cons, List.map_cons, List.map_nil,
    takeWhile_until_eq _ _ (by decide), takeWhile_until_eq _ _ (by decide)]

/-! ## Claim theorems -/

/-- C1: the claim says an annotation with no sort index whose page label does
not parse as an integer gets the maximal fallback key `"99999"` and sorts
last.  Evaluating the code at such an input: `string-to-number` returns `0`
without signalling, the `condition-case` handler is dead, the key is
`"00000"`, and the unparseable entry sorts FIRST, before a parsed page-5
entry — not last. -/
theorem c1_unparseable_page_label_sorts_first_eval :
    annotationSortKey annPageIV = str "00000" ∧
      annotationSortKey annPageIV ≠ str "99999" ∧
      zoteroSortAnnotations [annPage5, annPageIV] = [annPageIV, annPage5] := by
  refine ⟨by decide, by decide, by decide⟩

/-- C2 (counterexample): the repair pipeline is not idempotent.  On the input
`"ÂÂ°"` one pass rewrites the rightmost `Â°` to `°`, leaving a fresh `Â°`
that only a second pass repairs, so `repair (repair x) ≠ repair x`. -/
theorem c2_repair_not_idempotent_cex :
    normalizeTextEncoding (str "ÂÂ°") = str "Â°" ∧
      normalizeTextEncoding (str "Â°") = str "°" ∧
      normalizeTextEncoding (normalizeTextEncoding (str "ÂÂ°")) ≠
        normalizeTextEncoding (str "ÂÂ°") := by
  refine ⟨by decide, by decide, by decide⟩

/-- C2 (amended): the repair pipeline is idempotent on every ASCII-only input
that contains no double quote and none of the ASCII corruption triggers
(`as;9`, `pa5-checks`, `th%`, `undenl`, `ration-ali'ze`); on such inputs it
is the identity, so a second application changes nothing. -/
theorem c2_repair_idempotent_on_clean_ascii (s : Str) (hs : cleanAscii s) :
    normalizeTextEncoding (normalizeTextEncoding s) = normalizeTextEncoding s := by
  have h := normalizeTextEncoding_eq_self_of_cleanAscii s hs
  rw [h, h]

/-- C2 witness: the amended idempotence at a concrete clean input. -/
theorem c2_repair_idempotent_witness :
    cleanAscii (str "Plain ASCII text, nothing corrupted.") ∧
      normalizeTextEncoding (normalizeTextEncoding (str "Plain ASCII text, nothing corrupted.")) =
        normalizeTextEncoding (str "Plain ASCII text, nothing corrupted.") :=
  ⟨by decide, c2_repair_idempotent_on_clean_ascii _ (by decide)⟩

/-- C3 (counterexample): the repair pipeline does not leave every ASCII-only
string unchanged: the all-ASCII corruption pattern `"th%"` is rewritten to
`"they"`. -/
theorem c3_repair_changes_ascii_cex :
    (∀ c ∈ str "th%", asciiChar c = true) ∧
      normalizeTextEncoding (str "th%") = str "they" ∧
      normalizeTextEncoding (str "th%") ≠ str "th%" := by
  refine ⟨by decide, by decide, by decide⟩

/-- C3 (amended): the repair pipeline returns every ASCII-only string
unchanged provided it contains no double-quote character and none of the
ASCII corruption triggers (`as;9`, `pa5-checks`, `th%`, `undenl`,
`ration-ali'ze`). -/
theorem c3_repair_ascii_clean_unchanged (s : Str) (hs : cleanAscii s) :
    normalizeTextEncoding s = s :=
  normalizeTextEncoding_eq_self_of_cleanAscii s hs

/-- C3 witness: the amended claim at a concrete clean ASCII input. -/
theorem c3_repair_ascii_clean_witness :
    cleanAscii (str "The quick brown fox jumps over 19 lazy dogs.") ∧
      normalizeTextEncoding (str "The quick brown fox jumps over 19 lazy dogs.") =
        str "The quick brown fox jumps over 19 lazy dogs." :=
  ⟨by decide, c3_repair_ascii_clean_unchanged _ (by decide)⟩

/-- C5: the numeric-mode chapter resolver on the specification's example map:
position 10 yields Background (level 1) and 1.1 History (level 2); position 3
yields Introduction alone; position 25 yields Methods alone, the deeper
level-2 entry having been evicted — each result ascending by level. -/
theorem c5_chapter_resolver_examples :
    getChaptersForPage exampleChapterMap (some (str "10")) =
        [(str "Background", 1), (str "1.1 History", 2)] ∧
      getChaptersForPage exampleChapterMap (some (str "3")) = [(str "Introduction", 1)] ∧
      getChaptersForPage exampleChapterMap (some (str "25")) = [(str "Methods", 1)] := by
  refine ⟨by decide, by decide, by decide⟩

/-- C9: an aggregate record carrying an error marker renders, in both output
syntaxes, as exactly the one-line error comment `# Error: …` — no title
heading, no property block, no attachment or annotation content. -/
theorem c9_error_marker_short_circuits
    (gcm : Str → Str → List ChapterEntry) (d : AnnotationsData)
    (ck : Option Str) (msg : Str) (hm : d.errorMsg = some msg) :
    formatAsOrgMode gcm d ck = some (str "# Error: " ++ msg ++ str "\n") ∧
      formatAsMarkdown gcm d ck = some (str "# Error: " ++ msg ++ str "\n") := by
  constructor
  · simp [formatAsOrgMode, hm]
  · simp [formatAsMarkdown, hm]

/-- C9 witness: the short circuit at a concrete errored record. -/
theorem c9_error_marker_witness :
    formatAsOrgMode noChapterMap erroredRecord none =
        some (str "# Error: " ++ str "Item X not found" ++ str "\n") ∧
      formatAsMarkdown noChapterMap erroredRecord none =
        some (str "# Error: " ++ str "Item X not found" ++ str "\n") :=
  c9_error_marker_short_circuits noChapterMap erroredRecord none (str "Item X not found") rfl

/-! ## Helpers for the renderer claims -/

/-- A marked segment of a concatenation is an infix. -/
theorem segment_isInfix (A P B : Str) : List.IsInfix P (A ++ (P ++ B)) :=
  ⟨A, B, List.append_assoc A P B⟩

/-- Whatever the content type, the TypeScript link starts
`[[zotero://open-`. -/
theorem generateZoteroOrgLink_starts_open (ak : Str) (lib : Int) (a : ZoteroAnnot) (ct : Str) :
    List.IsPrefix (str "[[zotero://open-") (generateZoteroOrgLink ak lib a ct) := by
  rw [generateZoteroOrgLink]
  by_cases hct : ct = str "application/epub+zip"
  · rw [if_pos hct]
    exact ⟨_, by simp only [generateZoteroEpubUrl, List.append_assoc, List.cons_append]; rfl⟩
  · rw [if_neg hct]
    exact ⟨_, by simp only [generateZoteroPdfUrl, List.append_assoc, List.cons_append]; rfl⟩

/-- Discarding an empty or absent text through repair and the emptiness
check yields nothing. -/
theorem nonEmptyOpt_normalize_empty (o : Option Str) (ho : o = none ∨ o = some []) :
    nonEmptyOpt (normalizeTextEncodingOpt o) = none := by
  rcases ho with h | h <;>
    simp [h, normalizeTextEncodingOpt, nonEmptyOpt, normalizeTextEncoding_nil]

/-- `formatHighlight` always opens with the link line and the quote block. -/
theorem formatHighlight_decomp (b : ZoteroAnnot) (ak : Str) (lib : Int) (ct : Str) :
    ∃ rest, AnnotationFormatter.formatHighlight b ak lib ct =
      generateZoteroOrgLink ak lib b ct ++ (str "\n" ++ (str "#+begin_quote\n" ++ rest)) :=
  ⟨_, by simp only [AnnotationFormatter.formatHighlight, List.append_assoc]; rfl⟩

/-- `formatNote` always opens with the link line and the comment block. -/
theorem formatNote_decomp (b : ZoteroAnnot) (ak : Str) (lib : Int) (ct : Str) :
    ∃ rest, AnnotationFormatter.formatNote b ak lib ct =
      generateZoteroOrgLink ak lib b ct ++ (str "\n" ++ (str "#+begin_comment\n" ++ rest)) :=
  ⟨_, by simp only [AnnotationFormatter.formatNote, List.append_assoc]; rfl⟩

/-- C4 (amended): for a highlight or underline whose text is empty or
absent, the Emacs Lisp per-annotation renderer emits zero lines whenever it
returns — no link line, no quote block, no comment and no tag line — and it
does not return at all when the annotation's tags form a nonempty proper
list: the tag block's `(lambda (t) ...)` binds the constant `t` and signals
`setting-constant` (`none`).  The TypeScript `formatHighlight`, by contrast,
always emits the link line and the quote block. -/
theorem c4_empty_highlight_zero_or_signal :
    (∀ (a : AnnotationData) (att : Str) (ck : Option Str),
        (a.annotationType = some (str "highlight") ∨
          a.annotationType = some (str "underline")) →
        (a.annotationText = none ∨ a.annotationText = some []) →
        formatSingleAnnotationOrg a att ck =
          (match a.tags with
            | TagsValue.lst (_ :: _) => none
            | _ => some ([] : List Str))) ∧
      (∀ (b : ZoteroAnnot) (ak : Str) (lib : Int) (ct : Str),
        (b.annotationText = none ∨ b.annotationText = some []) →
        List.IsPrefix (str "[[zotero://open-")
            (AnnotationFormatter.formatHighlight b ak lib ct) ∧
          List.IsInfix (str "#+begin_quote\n")
            (AnnotationFormatter.formatHighlight b ak lib ct)) := by
  constructor
  · intro a att ck htype htext
    have htext2 := nonEmptyOpt_normalize_empty _ htext
    rcases hts : a.tags with ts | ts
    · rcases htype with h | h <;>
        simp [formatSingleAnnotationOrg, h, htext2, hts, orgTagLine]
    · cases ts with
      | nil =>
        rcases htype with h | h <;>
          simp [formatSingleAnnotationOrg, h, htext2, hts, orgTagLine]
      | cons x xs =>
        rcases htype with h | h <;>
          simp [formatSingleAnnotationOrg, h, htext2, hts, orgTagLine]
  · intro b ak lib ct _
    obtain ⟨rest, hrest⟩ := formatHighlight_decomp b ak lib ct
    rw [hrest]
    constructor
    · exact (generateZoteroOrgLink_starts_open ak lib b ct).trans (List.prefix_append _ _)
    · rw [← List.append_assoc]
      exact segment_isInfix _ _ _

/-- C4 witness: the amended claim at concrete inputs — both tag shapes on
the Emacs Lisp side (a list-shaped tag makes the renderer signal, a
vector-shaped one yields zero lines), and a TypeScript empty-text highlight
still opening with the link line. -/
theorem c4_empty_highlight_witness :
    formatSingleAnnotationOrg emptyHighlightTagged (str "ATT001") none = none ∧
      formatSingleAnnotationOrg emptyHighlightVecTagged (str "ATT001") none = some [] ∧
      List.IsPrefix (str "[[zotero://open-")
        (AnnotationFormatter.formatHighlight tsEmptyHighlight (str "ATT001") 1
          (str "application/pdf")) :=
  ⟨c4_empty_highlight_zero_or_signal.1 emptyHighlightTagged (str "ATT001") none
      (Or.inl rfl) (Or.inr rfl),
    c4_empty_highlight_zero_or_signal.1 emptyHighlightVecTagged (str "ATT001") none
      (Or.inl rfl) (Or.inr rfl),
    (c4_empty_highlight_zero_or_signal.2 tsEmptyHighlight (str "ATT001") 1
      (str "application/pdf") (Or.inr rfl)).1⟩

/-- C4 (counterexample): the claim fails in both sources: the TypeScript
formatter emits a link line and an empty quote block for an empty-text
highlight rather than nothing, and the Emacs Lisp renderer does not return
zero lines for an empty-text highlight carrying a list-shaped tag — it
signals (`none`) instead of returning any lines. -/
theorem c4_empty_highlight_cex :
    AnnotationFormatter.formatHighlight tsEmptyHighlight (str "ATT001") 1
        (str "application/pdf") ≠ [] ∧
      formatSingleAnnotationOrg emptyHighlightTagged (str "ATT001") none ≠ some [] := by
  refine ⟨by decide, by decide⟩

/-- C6 (amended): for note annotations the two comment-block behaviours are
the opposite of the claim's attribution: the single-annotation renderer used
by the chapter-aware Emacs Lisp assembly omits the comment block entirely
when the comment is empty (emitting just the link line) and emits
it only for a non-empty comment, while the TypeScript plugin's per-item
`formatNote` always emits the comment block, possibly empty; both always
emit the link line.  The Emacs Lisp renderer returns lines at all only when
the annotation's tags are not a nonempty proper list — on such tags its
broken tag block signals `setting-constant` (`none`) — and no tag line is
ever part of its output. -/
theorem c6_note_comment_block_behaviour :
    (∀ (a : AnnotationData) (att : Str) (ck : Option Str),
        a.annotationType = some (str "note") →
        (a.annotationComment = none ∨ a.annotationComment = some []) →
        formatSingleAnnotationOrg a att ck =
          (match a.tags with
            | TagsValue.lst (_ :: _) => none
            | _ => some [orgLinkLine a att])) ∧
      (∀ (a : AnnotationData) (att : Str) (ck : Option Str) (c : Str),
        a.annotationType = some (str "note") → a.annotationComment = some c → c ≠ [] →
        formatSingleAnnotationOrg a att ck =
          (match a.tags with
            | TagsValue.lst (_ :: _) => none
            | _ => some [orgLinkLine a att, str "#+begin_comment",
                normalizeTextEncoding c, str "#+end_comment"])) ∧
      (∀ (b : ZoteroAnnot) (ak : Str) (lib : Int) (ct : Str),
        List.IsPrefix (str "[[zotero://open-") (AnnotationFormatter.formatNote b ak lib ct) ∧
          List.IsInfix (str "#+begin_comment\n") (AnnotationFormatter.formatNote b ak lib ct)) := by
  refine ⟨?_, ?_, ?_⟩
  · intro a att ck htype hc
    have hcom2 := nonEmptyOpt_normalize_empty _ hc
    rcases hts : a.tags with ts | ts
    · simp [formatSingleAnnotationOrg, htype, hcom2, hts, orgTagLine,
        show ¬(str "note" = str "highlight" ∨ str "note" = str "underline") from by decide]
    · cases ts with
      | nil =>
        simp [formatSingleAnnotationOrg, htype, hcom2, hts, orgTagLine,
          show ¬(str "note" = str "highlight" ∨ str "note" = str "underline") from by decide]
      | cons x xs =>
        simp [formatSingleAnnotationOrg, htype, hcom2, hts, orgTagLine,
          show ¬(str "note" = str "highlight" ∨ str "note" = str "underline") from by decide]
  · intro a att ck c htype hcom hcne
    have hnorm : normalizeTextEncoding c ≠ [] := normalizeTextEncoding_ne_nil c hcne
    rcases hts : a.tags with ts | ts
    · simp [formatSingleAnnotationOrg, htype, hcom, normalizeTextEncodingOpt, nonEmptyOpt,
        hnorm, hts, orgTagLine,
        show ¬(str "note" = str "highlight" ∨ str "note" = str "underline") from by decide]
    · cases ts with
      | nil =>
        simp [formatSingleAnnotationOrg, htype, hcom, normalizeTextEncodingOpt, nonEmptyOpt,
          hnorm, hts, orgTagLine,
          show ¬(str "note" = str "highlight" ∨ str "note" = str "underline") from by decide]
      | cons x xs =>
        simp [formatSingleAnnotationOrg, htype, hcom, normalizeTextEncodingOpt, nonEmptyOpt,
          hnorm, hts, orgTagLine,
          show ¬(str "note" = str "highlight" ∨ str "note" = str "underline") from by decide]
  · intro b ak lib ct
    obtain ⟨rest, hrest⟩ := formatNote_decomp b ak lib ct
    rw [hrest]
    constructor
    · exact (generateZoteroOrgLink_starts_open ak lib b ct).trans (List.prefix_append _ _)
    · rw [← List.append_assoc]
      exact segment_isInfix _ _ _

/-- C6 witness: the amended behaviours at concrete inputs (a tag-free note
with an empty comment; a vector-tagged note with comment `c`; a TypeScript
note input). -/
theorem c6_note_comment_block_witness :
    formatSingleAnnotationOrg noteEmptyComment (str "ATT001") none =
        some [orgLinkLine noteEmptyComment (str "ATT001")] ∧
      formatSingleAnnotationOrg noteTaggedVec (str "ATT001") none =
        some [orgLinkLine noteTaggedVec (str "ATT001"), str "#+begin_comment",
          normalizeTextEncoding (str "c"), str "#+end_comment"] ∧
      List.IsPrefix (str "[[zotero://open-")
        (AnnotationFormatter.formatNote tsEmptyHighlight (str "ATT001") 1
          (str "application/pdf")) :=
  ⟨c6_note_comment_block_behaviour.1 noteEmptyComment (str "ATT001") none rfl (Or.inr rfl),
    c6_note_comment_block_behaviour.2.1 noteTaggedVec (str "ATT001") none (str "c") rfl rfl
      (by decide),
    (c6_note_comment_block_behaviour.2.2 tsEmptyHighlight (str "ATT001") 1
      (str "application/pdf")).1⟩

/-- C6 (counterexample): the single-annotation renderer used by the
chapter-aware assembly does not always emit the comment block: a note with an
empty comment renders as only its link line, with no `#+begin_comment`
anywhere. -/
theorem c6_note_comment_block_cex :
    formatSingleAnnotationOrg noteEmptyComment (str "ATT001") none =
        some [str "[[zotero://open-pdf/library/items/ATT001?page=10&annotation=ANN002][p. 10]]:"] ∧
      str "#+begin_comment" ∉
        (formatSingleAnnotationOrg noteEmptyComment (str "ATT001") none).getD [] := by
  refine ⟨by decide, by decide⟩

/-- C7 (amended): the TypeScript link builder.  For EPUB content the link
uses the `zotero://open-epub` scheme, passes the page/location label through
verbatim as the display label (defaulting to `Location` when empty), and its
URL's only query parameter is `annotation` — never `page`.  For every other
content type the label is parsed with `parseInt` and the page defaults to 1
both when parsing fails AND when it yields 0 (JavaScript's `|| 1` treats 0 as
falsy), and the URL's query parameters are `page` then `annotation`.  The
key-cleanliness hypotheses say the attachment and annotation keys contain no
`?`, `&` or `=`. -/
theorem c7_link_builder_branches (ak : Str) (lib : Int) (a : ZoteroAnnot) (ct : Str)
    (hak : ∀ c ∈ ak, c ≠ '?' ∧ c ≠ '&' ∧ c ≠ '=')
    (hkey : ∀ c ∈ a.key, c ≠ '?' ∧ c ≠ '&' ∧ c ≠ '=') :
    (ct = str "application/epub+zip" →
      generateZoteroOrgLink ak lib a ct =
        str "[[" ++ generateZoteroEpubUrl ak lib a.key ++ str "][" ++
          (if a.annotationPageLabel = [] then str "Location" else a.annotationPageLabel) ++
          str "]]:" ∧
      queryParamNames (generateZoteroEpubUrl ak lib a.key) = [str "annotation"]) ∧
    (ct ≠ str "application/epub+zip" →
      generateZoteroOrgLink ak lib a ct =
        str "[[" ++ generateZoteroPdfUrl ak lib (pdfPageOf a.annotationPageLabel) a.key ++
          str "][Page " ++ intToStr (pdfPageOf a.annotationPageLabel) ++ str "]]:" ∧
      pdfPageOf a.annotationPageLabel ≠ 0 ∧
      (∀ n : Int, jsParseInt a.annotationPageLabel = some n → n ≠ 0 →
        pdfPageOf a.annotationPageLabel = n) ∧
      (jsParseInt a.annotationPageLabel = none → pdfPageOf a.annotationPageLabel = 1) ∧
      queryParamNames (generateZoteroPdfUrl ak lib (pdfPageOf a.annotationPageLabel) a.key) =
        [str "page", str "annotation"]) := by
  constructor
  · intro hct
    refine ⟨?_, ?_⟩
    · rw [generateZoteroOrgLink, if_pos hct]
    · exact queryParamNames_epubUrl ak a.key lib (fun c hc => (hak c hc).1)
        (fun c hc => (hkey c hc).2.1)
  · intro hct
    refine ⟨?_, ?_, ?_, ?_, ?_⟩
    · rw [generateZoteroOrgLink, if_neg hct]
    · rcases hj : jsParseInt a.annotationPageLabel with _ | n
      · simp [pdfPageOf, hj]
      · by_cases hn : n = 0 <;> simp [pdfPageOf, hj, hn]
    · intro n hj hn
      simp [pdfPageOf, hj, hn]
    · intro hj
      simp [pdfPageOf, hj]
    · exact queryParamNames_pdfUrl ak a.key lib (pdfPageOf a.annotationPageLabel)
        (fun c hc => (hak c hc).1) (fun c hc => (hkey c hc).2.1)

/-- C7 witness: both branches at concrete inputs. -/
theorem c7_link_builder_witness :
    (generateZoteroOrgLink (str "ATT001") 1 tsChapter3 (str "application/epub+zip") =
        str "[[" ++ generateZoteroEpubUrl (str "ATT001") 1 tsChapter3.key ++ str "][" ++
          (if tsChapter3.annotationPageLabel = [] then str "Location"
            else tsChapter3.annotationPageLabel) ++ str "]]:" ∧
      queryParamNames (generateZoteroEpubUrl (str "ATT001") 1 tsChapter3.key) =
        [str "annotation"]) ∧
      pdfPageOf tsPageZero.annotationPageLabel ≠ 0 :=
  ⟨(c7_link_builder_branches (str "ATT001") 1 tsChapter3 (str "application/epub+zip")
      (by decide) (by decide)).1 rfl,
    ((c7_link_builder_branches (str "ATT001") 1 tsPageZero (str "application/pdf")
      (by decide) (by decide)).2 (by decide)).2.1⟩

/-- C7 (counterexample): a PDF page label `"0"` parses as the integer 0, but
the code emits page 1 (`parseInt(...) || 1` treats 0 as falsy), not page 0 as
the claim's "parsed as an integer (1 on parse failure)" implies. -/
theorem c7_page_zero_cex :
    jsParseInt (str "0") = some 0 ∧
      generateZoteroOrgLink (str "ATT001") 1 tsPageZero (str "application/pdf") =
        str "[[zotero://open-pdf/library/items/ATT001?page=1&annotation=K1][Page 1]]:" ∧
      generateZoteroOrgLink (str "ATT001") 1 tsPageZero (str "application/pdf") ≠
        str "[[zotero://open-pdf/library/items/ATT001?page=0&annotation=K1][Page 0]]:" := by
  refine ⟨by decide, by decide, by decide⟩

/-- Every character a whitespace-collapse leaves behind is either the
underscore it substituted or an original non-whitespace character. -/
theorem collapseWs_chars (s : Str) :
    ∀ (b : Bool), ∀ c ∈ collapseWs b s, c = '_' ∨ jsWhitespaceChar c = false := by
  induction s with
  | nil => intro b c hc; cases hc
  | cons d rest ih =>
    intro b c hc
    rw [collapseWs] at hc
    by_cases hd : jsWhitespaceChar d = true
    · rw [if_pos hd] at hc
      cases b with
      | true => exact ih true c hc
      | false =>
        rcases List.mem_cons.mp hc with rfl | hc2
        · exact Or.inl rfl
        · exact ih true c hc2
    · rw [if_neg hd] at hc
      rcases List.mem_cons.mp hc with rfl | hc2
      · exact Or.inr (Bool.not_eq_true _ ▸ hd)
      · exact ih false c hc2

/-- Every character of a sanitized tag token is neither whitespace nor a
colon. -/
theorem sanitizeTag_chars (t : Str) :
    ∀ c ∈ sanitizeTag t, jsWhitespaceChar c = false ∧ c ≠ ':' := by
  intro c hc
  rw [sanitizeTag, replaceColons] at hc
  obtain ⟨d, hd, rfl⟩ := List.mem_map.mp hc
  by_cases hdc : d = ':'
  · rw [if_pos hdc]
    exact ⟨by decide, by decide⟩
  · rw [if_neg hdc]
    rcases collapseWs_chars t false d hd with rfl | hws
    · exact ⟨by decide, by decide⟩
    · exact ⟨hws, hdc⟩

/-- In the TypeScript formatter the sanitization guarantee holds: each tag
token has its whitespace runs replaced by underscores and its colons by
hyphens, so no raw whitespace character and no colon survives inside a token,
and the rendered tag line is exactly the sanitized tokens joined and wrapped
in colons. -/
theorem ts_tag_tokens_sanitized :
    (∀ (t : Str), ∀ c ∈ sanitizeTag t, jsWhitespaceChar c = false ∧ c ≠ ':') ∧
      (∀ b : ZoteroAnnot, b.tags ≠ [] →
        AnnotationFormatter.formatTags b =
          str ":" ++ List.intercalate (str ":") (b.tags.map sanitizeTag) ++ str ":") := by
  constructor
  · exact sanitizeTag_chars
  · intro b hb
    rw [AnnotationFormatter.formatTags, if_neg hb]

/-- C8: the claim's sanitisation guarantee exists only in the TypeScript
decoration; the Emacs Lisp tag blocks can never render a tag token, sanitized
or raw.  A note whose tag `foo bar` arrives as a nonempty proper list makes
both Emacs Lisp renderers signal `setting-constant` — the tag block's
`(lambda (t) ...)` binds the constant symbol `t` — before producing anything
(`none`); the same note with its tags in a vector, the shape the package's
JSON parser (`:array-type 'array`) produces, fails the `(listp tags)` guard
and renders with the tags silently dropped, no tag line at all.  The
TypeScript `formatTags` does sanitise: the same tags render with whitespace
runs replaced by underscores. -/
theorem c8_tag_decoration_divergence :
    formatSingleAnnotationOrg noteTaggedFooBar (str "ATT001") none = none ∧
      formatSingleAnnotationMd noteTaggedFooBar (str "ATT001") none = none ∧
      formatSingleAnnotationOrg noteTaggedVec (str "ATT001") none =
        some [orgLinkLine noteTaggedVec (str "ATT001"), str "#+begin_comment",
          normalizeTextEncoding (str "c"), str "#+end_comment"] ∧
      sanitizeTag (str "foo bar") = str "foo_bar" ∧
      AnnotationFormatter.formatTags tsTaggedPair = str ":important:review_later:" := by
  refine ⟨by decide, by decide, by decide, by decide, by decide⟩

/-- C10: a call of `zotero-sort-annotations` on the chain at `p` leaves the
caller's chain intact — same cells, same values, in the original order —
and returns a freshly built chain, disjoint from the caller's cells, holding
the annotations in sorted reading order. -/
theorem c10_sorter_preserves_input_chain (h : Heap AnnotationData) (p : Option Nat)
    (res : Heap AnnotationData × Option Nat) (is : List Nat) (vs : List AnnotationData)
    (hch : ChainAt h p is vs) (hcall : SortAnnotationsCall h p res) :
    ChainAt res.1 p is vs ∧
      ∃ is2, ChainAt res.1 res.2 is2 (zoteroSortAnnotations vs) ∧ ∀ i ∈ is2, i ∉ is := by
  obtain ⟨is0, vs0, hch0, hres⟩ := hcall
  obtain ⟨hi, hv⟩ := hch.determ hch0
  subst hi
  subst hv
  subst hres
  exact zoteroSortAnnotationsHeap_spec h p is vs hch

/-- C10 witness: the frame property at a concrete two-cell heap. -/
theorem c10_sorter_witness :
    ChainAt (zoteroSortAnnotationsHeap twoCellHeap [annPage5, annPageIV]).1 (some 0) [0, 1]
        [annPage5, annPageIV] ∧
      ∃ is2, ChainAt (zoteroSortAnnotationsHeap twoCellHeap [annPage5, annPageIV]).1
          (zoteroSortAnnotationsHeap twoCellHeap [annPage5, annPageIV]).2 is2
          (zoteroSortAnnotations [annPage5, annPageIV]) ∧ ∀ i ∈ is2, i ∉ [0, 1] := by
  have hch : ChainAt twoCellHeap (some 0) [0, 1] [annPage5, annPageIV] :=
    ChainAt.cons (by decide) rfl (ChainAt.cons (by decide) rfl ChainAt.nil)
  exact c10_sorter_preserves_input_chain twoCellHeap (some 0) _ [0, 1]
    [annPage5, annPageIV] hch ⟨[0, 1], [annPage5, annPageIV], hch, rfl⟩
